import Mathlib

/-!
# libguile/vm.c : continuation capture and reinstatement, overflow handling, VM construction

A shallow embedding of the parts of `vm.c` that manipulate the VM value stack.

Conventions of the embedding.

* A machine word (`SCM`, `scm_t_bits`, a pointer) is an `Int`.  Addresses are counted in
  cells (one cell = one `SCM`), so that `p + 1` in C is `p + 1` here; the null pointer is `0`.
* Memory is one flat map from cell addresses to words.  `scm_gc_malloc`, `GC_generic_malloc`
  and `alloca` are external: the address each call returns is an argument of the function
  that makes the call.
* The sizes `size_t`, `ptrdiff_t` are mathematical integers; every object of the program is
  far smaller than the word range, so the sums and differences computed here do not wrap.
* A function that leaves by `scm_misc_error`, `scm_throw` or `abort` yields an `Outcome`
  recording the state at the moment control left it.
* The frame macros of `frames.h` enter as the displacements of a `frame_layout`; the functions
  of `dynstack.c` and `hooks.c` that `vm.c` calls enter as the fields of `dynstack_ops` and
  `hook_ops`.
* A function of `vm.c` that applies hook procedures yields a `hook_run`: the way it ends
  together with the applications of `hook_ops.call_procedure` it made, in order.
* The engine (`vm-engine.c`) is not part of `vm.c`.  Where a statement needs a run of the
  engine, its checked push and its dispatch step are modelled from the specification, and
  the definitions say so.
-/

namespace Guile

/-- A tagged machine word. -/
abbrev SCM := Int

/-- Cell-granular memory. -/
abbrev Mem := Int → SCM

/-- The boolean false immediate: `SCM_MAKIFLAG_BITS (0)`, whose bit pattern is `0x004`. -/
def SCM_BOOL_F : SCM := 4

/-- Size in SCM objects of the stack reserve. -/
def VM_STACK_RESERVE_SIZE : Int := 512

/-- Smallest stack size accepted from the environment. -/
def VM_MIN_STACK_SIZE : Int := 1024

/-- Stack size used when the environment does not override it, `256 * 1024`. -/
def VM_DEFAULT_STACK_SIZE : Int := 256 * 1024

/-- The errors thrown by the functions embedded here.  `misc_error subr msg` is
`scm_misc_error (subr, msg, args)`; `vm_error msg` is the throw to `vm-error` made by the
static function `vm_error`; `wrong_type_arg subr pos` is the rejection of argument `pos` by a
`SCM_VALIDATE_...` macro or by `scm_wrong_type_arg_msg`; `out_of_range subr pos` is the
rejection of an integer that does not fit the C type asked for.  The irritant lists are not
recorded. -/
inductive Error where
  | misc_error (subr : String) (msg : String)
  | vm_error (msg : String)
  | wrong_type_arg (subr : String) (pos : Nat)
  | out_of_range (subr : String) (pos : Nat)
deriving DecidableEq, Repr

/-- How a call ends: it returns, it leaves by a throw (the state is the one in force when the
throw happens), or it calls `abort ()`. -/
inductive Outcome (σ : Type) where
  | returned (s : σ)
  | raised (e : Error) (s : σ)
  | aborted
deriving DecidableEq

/-- The fields of `struct scm_vm`. -/
structure scm_vm where
  ip : Int
  sp : Int
  fp : Int
  stack_size : Int
  stack_base : Int
  stack_limit : Int
  trace_level : Int
  hooks : List SCM
  engine : Int
deriving DecidableEq, Repr

/-- The fields of `struct scm_vm_cont`. -/
structure scm_vm_cont where
  sp : Int
  fp : Int
  ra : Int
  stack_size : Int
  stack_base : Int
  reloc : Int
  dynstack : Int
  flags : Int
deriving DecidableEq, Repr

/-- A VM together with the memory its pointers refer to. -/
structure VMState where
  vp : scm_vm
  mem : Mem

/-- The store `*p = v`. -/
def write (mem : Mem) (p : Int) (v : SCM) : Mem :=
  fun a => if a = p then v else mem a

/-- The call `memcpy (dst, src, n * sizeof (SCM))` on non-overlapping blocks: the `n` cells
from `dst` on receive the old contents of the `n` cells from `src` on. -/
def memcpy (mem : Mem) (dst src n : Int) : Mem :=
  fun a => if dst ≤ a ∧ a < dst + n then mem (src + (a - dst)) else mem a

/-- The contents of the `n`-element array at `p`, as read by
`argv_copy = alloca (n * sizeof (SCM)); memcpy (argv_copy, argv, n * sizeof (SCM))`. -/
def read_array (mem : Mem) (p : Int) (n : Nat) : List SCM :=
  List.map (fun (i : Nat) => mem (p + (i : Int))) (List.range n)

/-- The two statements `vp->sp++; *vp->sp = v;`. -/
def push (s : VMState) (v : SCM) : VMState :=
  { vp := { s.vp with sp := s.vp.sp + 1 }, mem := write s.mem (s.vp.sp + 1) v }

/-- A loop `for (i = 0; i < n; i++) { vp->sp++; *vp->sp = vs[i]; }`. -/
def push_all (s : VMState) (vs : List SCM) : VMState :=
  vs.foldl push s

/-- Embedding of `scm_i_vm_capture_stack`.  `copy` is the address returned by the second
`scm_gc_malloc`, the buffer that receives the stack. -/
def scm_i_vm_capture_stack (mem : Mem) (copy : Int)
    (stack_base fp sp ra dynstack flags : Int) : scm_vm_cont × Mem :=
  let stack_size := sp - stack_base + 1
  ({ sp := sp, fp := fp, ra := ra, stack_size := stack_size, stack_base := copy,
     reloc := copy - stack_base, dynstack := dynstack, flags := flags },
   memcpy mem copy stack_base (sp + 1 - stack_base))

/-- Embedding of `vm_return_to_continuation`. -/
def vm_return_to_continuation (s : VMState) (cp : scm_vm_cont) (n : Nat) (argv : Int) :
    Outcome VMState :=
  let argv_copy := read_array s.mem argv n
  if s.vp.stack_size < cp.stack_size + (n : Int) + 3 then
    Outcome.raised (Error.misc_error "vm-engine" "not enough space to reinstate continuation") s
  else
    let s1 : VMState :=
      { vp := { s.vp with sp := cp.sp, fp := cp.fp },
        mem := memcpy s.mem s.vp.stack_base cp.stack_base cp.stack_size }
    let s2 := push_all s1 (List.replicate 3 SCM_BOOL_F)
    let s3 := push_all s2 argv_copy
    Outcome.returned { s3 with vp := { s3.vp with ip := cp.ra } }

/-- The frame macros of `frames.h`.  Each of `SCM_FRAME_LOCALS_ADDRESS (fp)`,
`SCM_FRAME_LOWER_ADDRESS (fp)` and the slot read by `SCM_FRAME_DYNAMIC_LINK (fp)` lies at a
fixed displacement from `fp`; the three displacements are the fields. -/
structure frame_layout where
  locals : Int
  lower : Int
  dynamic_link : Int
deriving DecidableEq, Repr

/-- Address of the first local of the frame at `fp`. -/
def SCM_FRAME_LOCALS_ADDRESS (L : frame_layout) (fp : Int) : Int := fp + L.locals

/-- Lowest address of the frame at `fp`. -/
def SCM_FRAME_LOWER_ADDRESS (L : frame_layout) (fp : Int) : Int := fp + L.lower

/-- The saved frame pointer of the caller, read from the frame at `fp`. -/
def SCM_FRAME_DYNAMIC_LINK (L : frame_layout) (mem : Mem) (fp : Int) : Int :=
  mem (fp + L.dynamic_link)

/-- Store `dl` as the dynamic link of the frame at `fp`. -/
def SCM_FRAME_SET_DYNAMIC_LINK (L : frame_layout) (mem : Mem) (fp : Int) (dl : Int) : Mem :=
  write mem (fp + L.dynamic_link) dl

/-- The loop
`for (fp = RELOC (cp->fp); SCM_FRAME_LOWER_ADDRESS (fp) > base; fp = SCM_FRAME_DYNAMIC_LINK (fp))
   SCM_FRAME_SET_DYNAMIC_LINK (fp, RELOC (SCM_FRAME_DYNAMIC_LINK (fp)));`
run for at most the given number of iterations; `none` when the loop has not ended by then. -/
def relocate_frames (L : frame_layout) (reloc base : Int) : Nat → Int → Mem → Option Mem
  | 0, fp, mem => if SCM_FRAME_LOWER_ADDRESS L fp > base then none else some mem
  | k + 1, fp, mem =>
    if SCM_FRAME_LOWER_ADDRESS L fp > base then
      let mem1 := SCM_FRAME_SET_DYNAMIC_LINK L mem fp (SCM_FRAME_DYNAMIC_LINK L mem fp + reloc)
      relocate_frames L reloc base k (SCM_FRAME_DYNAMIC_LINK L mem1 fp) mem1
    else some mem

/-- One entry met by the walk `SCM_DYNSTACK_FIRST` / `SCM_DYNSTACK_NEXT` over a captured
dynstack: its address and whether its tag type is `SCM_DYNSTACK_TYPE_PROMPT`. -/
structure dynstack_entry where
  walk : Int
  is_prompt : Bool
deriving DecidableEq, Repr

/-- The two winding functions of `dynstack.c`, acting on a dynamic stack of type `D`. -/
structure dynstack_ops (D : Type) where
  scm_dynstack_wind_prompt : D → Int → Int → Int → D
  scm_dynstack_wind_1 : D → Int → D

/-- The winding loop at the end of `vm_reinstate_partial_continuation`; `entries` are the
entries of `cp->dynstack` in walk order, up to the first null tag. -/
def wind_entries {D : Type} (ops : dynstack_ops D) (reloc registers : Int) (dynstack : D)
    (entries : List dynstack_entry) : D :=
  entries.foldl
    (fun d e =>
      if e.is_prompt then ops.scm_dynstack_wind_prompt d e.walk reloc registers
      else ops.scm_dynstack_wind_1 d e.walk)
    dynstack

/-- Embedding of `vm_reinstate_partial_continuation`.  The first argument bounds the number of
iterations of the frame relocation loop; the result is `none` when that bound is reached. -/
def vm_reinstate_partial_continuation {D : Type} (L : frame_layout) (ops : dynstack_ops D)
    (fuel : Nat) (s : VMState) (cp : scm_vm_cont) (n : Nat) (argv : Int)
    (entries : List dynstack_entry) (dynstack : D) (registers : Int) :
    Option (Outcome (VMState × D)) :=
  let argv_copy := read_array s.mem argv n
  let base := SCM_FRAME_LOCALS_ADDRESS L s.vp.fp
  let reloc := cp.reloc + (base - cp.stack_base)
  if (base - s.vp.stack_base) + cp.stack_size + (n : Int) + 1 > s.vp.stack_size then
    some (Outcome.raised
      (Error.misc_error "vm-engine" "not enough space to instate partial continuation")
      (s, dynstack))
  else
    let mem1 := memcpy s.mem base cp.stack_base cp.stack_size
    match relocate_frames L reloc base fuel (cp.fp + reloc) mem1 with
    | none => none
    | some mem2 =>
      let s1 : VMState :=
        { vp := { s.vp with sp := base - 1 + cp.stack_size, fp := cp.fp + reloc, ip := cp.ra },
          mem := mem2 }
      let s2 := push_all s1 argv_copy
      some (Outcome.returned (s2, wind_entries ops reloc registers dynstack entries))

/-- Embedding of the static function `vm_error`: a throw to `vm-error`. -/
def vm_error {σ : Type} (msg : String) (s : σ) : Outcome σ :=
  Outcome.raised (Error.vm_error msg) s

/-- Embedding of `vm_error_stack_overflow`. -/
def vm_error_stack_overflow (vp : scm_vm) : Outcome scm_vm :=
  if vp.stack_limit < vp.stack_base + vp.stack_size then
    vm_error "VM: Stack overflow" { vp with stack_limit := vp.stack_base + vp.stack_size }
  else
    Outcome.aborted

/-- Number of hook slots of a VM: `vm.c` defines one accessor for each of the apply,
push-continuation, pop-continuation, next, abort-continuation and restore-continuation hooks. -/
def SCM_VM_NUM_HOOKS : Nat := 6

/-- What `make_vm` produces: the new `struct scm_vm`, its address, the address of the stack
block and the number of cells requested for it, and the memory after the call. -/
structure make_vm_result where
  vp : scm_vm
  vp_addr : Int
  block : Int
  block_cells : Int
  mem : Mem

/-- Embedding of `make_vm` (with `VM_ENABLE_PRECISE_STACK_GC_SCAN`, without
`VM_ENABLE_STACK_NULLING`).  `vp_addr` is the result of `scm_gc_malloc`, `block` the result of
`GC_generic_malloc`; `vm_stack_size` and `vm_default_engine` are the two static variables. -/
def make_vm (mem : Mem) (vp_addr block : Int) (vm_stack_size vm_default_engine : Int) :
    make_vm_result :=
  let stack_size0 := vm_stack_size
  let stack_base0 := block
  let mem1 := write mem stack_base0 vp_addr
  let stack_base := stack_base0 + 1
  let stack_size := stack_size0 - 1
  { vp :=
      { stack_size := stack_size,
        stack_base := stack_base,
        stack_limit := stack_base + stack_size - VM_STACK_RESERVE_SIZE,
        ip := 0,
        sp := stack_base - 1,
        fp := 0,
        engine := vm_default_engine,
        trace_level := 0,
        hooks := List.replicate SCM_VM_NUM_HOOKS SCM_BOOL_F },
    vp_addr := vp_addr,
    block := block,
    block_cells := stack_size0,
    mem := mem1 }

/-- The loop `for (word = ...; word <= vm->sp; word++) mark_stack_ptr = GC_MARK_AND_PUSH (*word, ...)`
with `k` iterations left to run. -/
def mark_words {M : Type} (GC_MARK_AND_PUSH : SCM → M → M) (mem : Mem) :
    Nat → Int → M → M
  | 0, _, mark_stack_ptr => mark_stack_ptr
  | k + 1, word, mark_stack_ptr =>
    mark_words GC_MARK_AND_PUSH mem k (word + 1) (GC_MARK_AND_PUSH (mem word) mark_stack_ptr)

/-- Embedding of `vm_stack_mark`.  `vm_at` reads a `struct scm_vm` through a pointer;
`GC_MARK_AND_PUSH` is the collector's macro, acting on a mark stack of type `M`. -/
def vm_stack_mark {M : Type} (GC_MARK_AND_PUSH : SCM → M → M) (vm_at : Int → scm_vm)
    (mem : Mem) (addr : Int) (mark_stack_ptr : M) : M :=
  let vm := mem addr
  if vm = 0 ∨ addr ≠ (vm_at vm).stack_base - 1 then
    mark_stack_ptr
  else
    mark_words GC_MARK_AND_PUSH mem ((vm_at vm).sp + 1 - (vm_at vm).stack_base).toNat
      (vm_at vm).stack_base mark_stack_ptr

/-- Embedding of `scm_i_capture_current_stack`: the capture of the whole live stack of the
current VM; `dynstack` is the handle returned by `scm_dynstack_capture_all`. -/
def scm_i_capture_current_stack (s : VMState) (copy dynstack : Int) : scm_vm_cont × Mem :=
  scm_i_vm_capture_stack s.mem copy s.vp.stack_base s.vp.fp s.vp.sp s.vp.ip dynstack 0

/-- The fields of `struct scm_frame`. -/
structure scm_frame where
  stack_holder : SCM
  fp : Int
  sp : Int
  ip : Int
  offset : Int
deriving DecidableEq, Repr

/-- The hook machinery of `hooks.c` as used by `vm_dispatch_hook`: the procedure list of a hook
object, and the effect of applying one hook procedure to the frame object and the further
arguments. -/
structure hook_ops where
  SCM_HOOK_PROCEDURES : SCM → List SCM
  call_procedure : SCM → scm_frame → List SCM → VMState → Outcome VMState

/-- One application of a hook procedure: the procedure, the frame object and the further
arguments it is applied to, and the state in force when it is entered. -/
structure hook_call where
  proc : SCM
  frame : scm_frame
  args : List SCM
  state : VMState

/-- What the application `c` of a hook procedure yields under the hook machinery `H`. -/
def hook_call.result (H : hook_ops) (c : hook_call) : Outcome VMState :=
  H.call_procedure c.proc c.frame c.args c.state

/-- A run of hook procedures: how it ends, and the applications of procedures made during
it, in the order in which they were made. -/
structure hook_run where
  outcome : Outcome VMState
  calls : List hook_call

/-- Apply the procedures of a hook one after the other, stopping at the first that does not
return. -/
def run_procedures (H : hook_ops) (frame : scm_frame) (args : List SCM) :
    List SCM → VMState → hook_run
  | [], s => { outcome := Outcome.returned s, calls := [] }
  | p :: ps, s =>
    match H.call_procedure p frame args s with
    | Outcome.returned s1 =>
      { outcome := (run_procedures H frame args ps s1).outcome,
        calls := { proc := p, frame := frame, args := args, state := s } ::
          (run_procedures H frame args ps s1).calls }
    | Outcome.raised e s1 =>
      { outcome := Outcome.raised e s1,
        calls := [{ proc := p, frame := frame, args := args, state := s }] }
    | Outcome.aborted =>
      { outcome := Outcome.aborted,
        calls := [{ proc := p, frame := frame, args := args, state := s }] }

/-- The call `scm_c_run_hookn (hook, args, n)` where `args[0]` is the frame object. -/
def scm_c_run_hookn (H : hook_ops) (hook : SCM) (frame : scm_frame) (args : List SCM)
    (s : VMState) : hook_run :=
  run_procedures H frame args (H.SCM_HOOK_PROCEDURES hook) s

/-- The call `scm_c_run_hook (hook, scm_cons (frame, args))`. -/
def scm_c_run_hook (H : hook_ops) (hook : SCM) (frame : scm_frame) (args : List SCM)
    (s : VMState) : hook_run :=
  run_procedures H frame args (H.SCM_HOOK_PROCEDURES hook) s

/-- The loop `while (n--) args = scm_cons (argv[n], args);`. -/
def cons_args (mem : Mem) (argv : Int) : Nat → List SCM → List SCM
  | 0, args => args
  | n + 1, args => cons_args mem argv n (mem (argv + (n : Int)) :: args)

/-- Embedding of `vm_dispatch_hook`.  The result carries, besides the way the function ends,
the applications of hook procedures made on the way. -/
def vm_dispatch_hook (H : hook_ops) (s : VMState) (vm : SCM) (hook_num : Nat) (argv : Int)
    (n : Nat) : hook_run :=
  let hook := s.vp.hooks.getD hook_num SCM_BOOL_F
  if hook = SCM_BOOL_F ∨ H.SCM_HOOK_PROCEDURES hook = [] then
    { outcome := Outcome.returned s, calls := [] }
  else
    let saved_trace_level := s.vp.trace_level
    let s1 : VMState := { s with vp := { s.vp with trace_level := 0 } }
    let c_frame : scm_frame :=
      { stack_holder := vm, fp := s1.vp.fp, sp := s1.vp.sp, ip := s1.vp.ip, offset := 0 }
    let r :=
      if n = 0 then scm_c_run_hookn H hook c_frame [] s1
      else if n = 1 then scm_c_run_hookn H hook c_frame [s1.mem argv] s1
      else scm_c_run_hook H hook c_frame (cons_args s1.mem argv n []) s1
    match r.outcome with
    | Outcome.returned s2 =>
      { outcome :=
          Outcome.returned { s2 with vp := { s2.vp with trace_level := saved_trace_level } },
        calls := r.calls }
    | Outcome.raised e s2 => { outcome := Outcome.raised e s2, calls := r.calls }
    | Outcome.aborted => { outcome := Outcome.aborted, calls := r.calls }

/-- A Scheme datum as `scm_ilength`, `scm_car` and `scm_cdr` see it: the empty list, a pair,
or an object of another kind. -/
inductive scm_obj where
  | eol
  | pair (car : SCM) (cdr : scm_obj)
  | other (w : SCM)
deriving DecidableEq, Repr

/-- The function `scm_ilength` of `list.c`: the length of a proper list, `-1` for anything
else. -/
def scm_ilength : scm_obj → Int
  | scm_obj.eol => 0
  | scm_obj.pair _ d => if scm_ilength d < 0 then -1 else scm_ilength d + 1
  | scm_obj.other _ => -1

/-- The values stored by
`for (; i < nstack + tail_len; i++, tail = scm_cdr (tail)) argv[i] = scm_car (tail);`
when `k` iterations remain. -/
def tail_values : Nat → scm_obj → List SCM
  | 0, _ => []
  | k + 1, scm_obj.pair a d => a :: tail_values k d
  | _ + 1, _ => []

/-- How `vm_abort` ends: by the throw of `scm_misc_error`, or in the call
`scm_c_abort (vm, tag, nstack + tail_len, argv, current_registers)`, which does not return. -/
inductive abort_outcome where
  | raised (e : Error) (s : VMState)
  | c_abort (s : VMState) (vm : SCM) (tag : SCM) (argv : List SCM) (current_registers : Int)

/-- Embedding of `vm_abort`. -/
def vm_abort (s : VMState) (vm tag : SCM) (nstack : Nat) (stack_args : Int) (tail : scm_obj)
    (sp : Int) (current_registers : Int) : abort_outcome :=
  let tail_len := scm_ilength tail
  if tail_len < 0 then
    abort_outcome.raised
      (Error.misc_error "vm-engine" "tail values to abort should be a list") s
  else
    let argv := read_array s.mem stack_args nstack ++ tail_values tail_len.toNat tail
    abort_outcome.c_abort { s with vp := { s.vp with sp := sp } } vm tag argv current_registers

/-- The cursor invariant `base ≤ fp ≤ sp + 1 ≤ base + usable_capacity`. -/
def cursor_invariant (vp : scm_vm) : Prop :=
  vp.stack_base ≤ vp.fp ∧ vp.fp ≤ vp.sp + 1 ∧ vp.sp + 1 ≤ vp.stack_base + vp.stack_size

instance (vp : scm_vm) : Decidable (cursor_invariant vp) := by
  unfold cursor_invariant; infer_instance

/-- The hook procedures of `H` hand back the `struct scm_vm` as they found it, whether they
return or throw. -/
def hooks_keep_vm (H : hook_ops) : Prop :=
  ∀ p frame args s,
    match H.call_procedure p frame args s with
    | Outcome.returned s1 => s1.vp = s.vp
    | Outcome.raised _ s1 => s1.vp = s.vp
    | Outcome.aborted => True

/-- The states a VM made by `make_vm` (from a configured size `N`, in memory `mem`, with the
allocator results `vp_addr` and `block`) reaches through the operations of `vm.c`, each used
the way its source presupposes:

* `fresh`: the VM as `make_vm` returns it.
* `capture`: `scm_i_capture_current_stack` copies the live stack into a new buffer.
* `full`: `vm_return_to_continuation` returns, for a snapshot that
  `scm_i_capture_current_stack` took in a reachable state of this VM.
* `part`: `vm_reinstate_partial_continuation` returns; its `base` is
  `SCM_FRAME_LOCALS_ADDRESS (vp->fp)`, the locals of the current frame, so it is called with
  a current frame (`fp` not null).
* `abort`: `vm_abort` reaches `scm_c_abort`, having reset `sp` to its argument, which is
  not above the current `sp` (the cells between the two are those the source would clear:
  `NULLSTACK (SCM_VM_DATA (vp)->sp - sp)`).
* `overflow`: `vm_error_stack_overflow` throws.
* `hook_returned`, `hook_raised`: `vm_dispatch_hook` returns, or leaves by a throw. -/
inductive reachable {D : Type} (L : frame_layout) (ops : dynstack_ops D) (H : hook_ops)
    (mem : Mem) (vp_addr block N engine : Int) : VMState → Prop where
  | fresh :
      reachable L ops H mem vp_addr block N engine
        { vp := (make_vm mem vp_addr block N engine).vp,
          mem := (make_vm mem vp_addr block N engine).mem }
  | capture (s : VMState) (copy dynstack : Int) :
      reachable L ops H mem vp_addr block N engine s →
      reachable L ops H mem vp_addr block N engine
        { s with mem := (scm_i_capture_current_stack s copy dynstack).2 }
  | full (s0 s s1 : VMState) (copy dynstack : Int) (n : Nat) (argv : Int) :
      reachable L ops H mem vp_addr block N engine s0 →
      reachable L ops H mem vp_addr block N engine s →
      vm_return_to_continuation s (scm_i_capture_current_stack s0 copy dynstack).1 n argv
        = Outcome.returned s1 →
      reachable L ops H mem vp_addr block N engine s1
  | part (s s1 : VMState) (cp : scm_vm_cont) (fuel n : Nat) (argv : Int)
      (entries : List dynstack_entry) (d d1 : D) (registers : Int) :
      reachable L ops H mem vp_addr block N engine s →
      s.vp.fp ≠ 0 →
      vm_reinstate_partial_continuation L ops fuel s cp n argv entries d registers
        = some (Outcome.returned (s1, d1)) →
      reachable L ops H mem vp_addr block N engine s1
  | abort (s s1 : VMState) (vm tag : SCM) (nstack : Nat) (stack_args : Int) (tail : scm_obj)
      (sp registers : Int) (argv : List SCM) :
      reachable L ops H mem vp_addr block N engine s →
      sp ≤ s.vp.sp →
      vm_abort s vm tag nstack stack_args tail sp registers
        = abort_outcome.c_abort s1 vm tag argv registers →
      reachable L ops H mem vp_addr block N engine s1
  | overflow (s : VMState) (e : Error) (vp1 : scm_vm) :
      reachable L ops H mem vp_addr block N engine s →
      vm_error_stack_overflow s.vp = Outcome.raised e vp1 →
      reachable L ops H mem vp_addr block N engine { s with vp := vp1 }
  | hook_returned (s s1 : VMState) (vm : SCM) (hook_num : Nat) (argv : Int) (n : Nat) :
      reachable L ops H mem vp_addr block N engine s →
      (vm_dispatch_hook H s vm hook_num argv n).outcome = Outcome.returned s1 →
      reachable L ops H mem vp_addr block N engine s1
  | hook_raised (s s1 : VMState) (e : Error) (vm : SCM) (hook_num : Nat) (argv : Int)
      (n : Nat) :
      reachable L ops H mem vp_addr block N engine s →
      (vm_dispatch_hook H s vm hook_num argv n).outcome = Outcome.raised e s1 →
      reachable L ops H mem vp_addr block N engine s1

/-- Modelled from the spec: one step of the engine, whose source (`vm-engine.c`) is not at
hand.  Section 4.4: "The handler mutates `ip`, `sp`, `fp` and the current frame's locals,
then resumes dispatch."  A step may thus change the three cursors and the memory, and leaves
every other field of the VM record as it is. -/
def engine_step (s s1 : VMState) : Prop :=
  s1.vp = { s.vp with ip := s1.vp.ip, sp := s1.vp.sp, fp := s1.vp.fp }

/-- Modelled from the spec: the checked push of the engine.  Section 3: "`sp < stack_limit`
in normal operation; crossing it raises *StackOverflow*"; section 5: "When a push would cross
`stack_limit`, the VM first raises `stack_limit` to full capacity (giving the error-raising
path room), then raises *StackOverflow*."  The push that keeps `sp` below the limit is
performed; any other goes to the handler of `vm.c`, `vm_error_stack_overflow`. -/
def engine_push (s : VMState) (v : SCM) : Outcome VMState :=
  if s.vp.sp + 1 < s.vp.stack_limit then
    Outcome.returned (push s v)
  else
    match vm_error_stack_overflow s.vp with
    | Outcome.returned vp1 => Outcome.returned { s with vp := vp1 }
    | Outcome.raised e vp1 => Outcome.raised e { s with vp := vp1 }
    | Outcome.aborted => Outcome.aborted

/-- Modelled from the spec: a program that pushes the values `vs` one after the other
(scenario S6: "A program that pushes cells in a loop until overflow"); it stops at the first
push that does not return. -/
def engine_push_all : VMState → List SCM → Outcome VMState
  | s, [] => Outcome.returned s
  | s, v :: vs =>
    match engine_push s v with
    | Outcome.returned s1 => engine_push_all s1 vs
    | Outcome.raised e s1 => Outcome.raised e s1
    | Outcome.aborted => Outcome.aborted

/-- Modelled from the spec: the VM after an error raised in `run` has been caught by a handler
outside `run`.  Section 7: errors "are *raised* (unwinding through the dynamic-environment
stack), not returned; they are caught by host-level handlers outside the core".  The
unwinding puts the cursors back to those in force outside the run (`ip`, `sp`, `fp`); the
code that does it is not in `vm.c`, where no statement other than the two in `make_vm` and
`vm_error_stack_overflow` assigns `stack_limit`. -/
def caught_outside_run (s : VMState) (ip sp fp : Int) : VMState :=
  { s with vp := { s.vp with ip := ip, sp := sp, fp := fp } }

/-- What can happen to a VM after an overflow, in the same run or in a later one.

* Any call, with any arguments, of a function of `vm.c` that writes the VM: `capture`,
  `full`, `part`, `abort`, `overflow`, `hook_returned`, `hook_raised` as in `reachable`, and
  the assignments `SCM_VM_DATA (vm)->trace_level = scm_to_int (level)` of
  `scm_set_vm_trace_level_x` (`trace_level_set`), `SCM_VM_DATA (vm)->engine = engine` of
  `scm_c_set_vm_engine_x` (`engine_set`) and `vp->hooks[n] = scm_make_hook (...)` of
  `VM_DEFINE_HOOK` (`hook_made`).
* A step of the engine (`engine`) and a checked push (`pushed`, `push_raised`).
* The catch of an error outside the run (`caught`).

A later run is a further sequence of such steps: `scm_c_vm_run` hands the VM to the engine as
it is. -/
inductive later_step {D : Type} (L : frame_layout) (ops : dynstack_ops D) (H : hook_ops) :
    VMState → VMState → Prop where
  | capture (s : VMState) (copy dynstack : Int) :
      later_step L ops H s { s with mem := (scm_i_capture_current_stack s copy dynstack).2 }
  | full (s s1 : VMState) (cp : scm_vm_cont) (n : Nat) (argv : Int) :
      vm_return_to_continuation s cp n argv = Outcome.returned s1 →
      later_step L ops H s s1
  | part (s s1 : VMState) (cp : scm_vm_cont) (fuel n : Nat) (argv : Int)
      (entries : List dynstack_entry) (d d1 : D) (registers : Int) :
      vm_reinstate_partial_continuation L ops fuel s cp n argv entries d registers
        = some (Outcome.returned (s1, d1)) →
      later_step L ops H s s1
  | abort (s s1 : VMState) (vm tag : SCM) (nstack : Nat) (stack_args : Int) (tail : scm_obj)
      (sp registers : Int) (argv : List SCM) :
      vm_abort s vm tag nstack stack_args tail sp registers
        = abort_outcome.c_abort s1 vm tag argv registers →
      later_step L ops H s s1
  | overflow (s : VMState) (e : Error) (vp1 : scm_vm) :
      vm_error_stack_overflow s.vp = Outcome.raised e vp1 →
      later_step L ops H s { s with vp := vp1 }
  | hook_returned (s s1 : VMState) (vm : SCM) (hook_num : Nat) (argv : Int) (n : Nat) :
      (vm_dispatch_hook H s vm hook_num argv n).outcome = Outcome.returned s1 →
      later_step L ops H s s1
  | hook_raised (s s1 : VMState) (e : Error) (vm : SCM) (hook_num : Nat) (argv : Int)
      (n : Nat) :
      (vm_dispatch_hook H s vm hook_num argv n).outcome = Outcome.raised e s1 →
      later_step L ops H s s1
  | engine (s s1 : VMState) :
      engine_step s s1 →
      later_step L ops H s s1
  | pushed (s s1 : VMState) (v : SCM) :
      engine_push s v = Outcome.returned s1 →
      later_step L ops H s s1
  | push_raised (s s1 : VMState) (e : Error) (v : SCM) :
      engine_push s v = Outcome.raised e s1 →
      later_step L ops H s s1
  | caught (s : VMState) (ip sp fp : Int) :
      later_step L ops H s (caught_outside_run s ip sp fp)
  | trace_level_set (s : VMState) (level : Int) :
      later_step L ops H s { s with vp := { s.vp with trace_level := level } }
  | engine_set (s : VMState) (engine : Int) :
      later_step L ops H s { s with vp := { s.vp with engine := engine } }
  | hook_made (s : VMState) (n : Nat) (hook : SCM) :
      later_step L ops H s { s with vp := { s.vp with hooks := s.vp.hooks.set n hook } }

/-- The frames visited by the relocation loop, described on the slice as copied (`mem`, before
any link is rewritten): starting from `fp`, a frame whose lower address is above `base` is on
the chain and is followed by the frame its dynamic link, moved by `reloc`, points to; the
chain ends at the first frame whose lower address is not above `base`. -/
def frame_chain (L : frame_layout) (mem : Mem) (reloc base : Int) : Int → List Int → Prop
  | fp, [] => ¬ SCM_FRAME_LOWER_ADDRESS L fp > base
  | fp, f :: fs =>
    f = fp ∧ SCM_FRAME_LOWER_ADDRESS L fp > base ∧
      frame_chain L mem reloc base (SCM_FRAME_DYNAMIC_LINK L mem fp + reloc) fs

/-- The frame layout with the locals at `fp` and a three-word record below them whose first
word is the dynamic link. -/
def layout_three : frame_layout := { locals := 0, lower := -3, dynamic_link := -3 }

/-! ## Concrete states used to exercise the embedding -/

/-- A memory whose cell at address `a` holds `2 * a`. -/
def mem_double : Mem := fun a => 2 * a

/-- A VM with base `10`, a usable capacity of `8` cells, and cursors `fp = 11`, `sp = 12`. -/
def vm_small : scm_vm :=
  { ip := 70, sp := 12, fp := 11, stack_size := 8, stack_base := 10, stack_limit := 14,
    trace_level := 0, hooks := List.replicate SCM_VM_NUM_HOOKS SCM_BOOL_F, engine := 0 }

/-- The VM `vm_small` over the memory `mem_double`. -/
def state_small : VMState := { vp := vm_small, mem := mem_double }

/-- A snapshot of `state_small` whose buffer lies at address `100`. -/
def cont_small : scm_vm_cont := (scm_i_capture_current_stack state_small 100 0).1

/-- The memory of `state_small` after the capture of `cont_small`. -/
def mem_captured : Mem := (scm_i_capture_current_stack state_small 100 0).2

/-- A later state of the same VM: other cursors, and every stack cell overwritten with `1`;
the buffer of `cont_small` is as the capture left it. -/
def state_later : VMState :=
  { vp := { vm_small with ip := 71, sp := 15, fp := 14 },
    mem := fun a => if a < 100 then 1 else mem_captured a }

/-- A snapshot record claiming `7` cells, too many to reinstate into `vm_small` together
with the empty frame. -/
def cont_large : scm_vm_cont :=
  { sp := 16, fp := 11, ra := 70, stack_size := 7, stack_base := 100, reloc := 90,
    dynstack := 0, flags := 0 }

/-- A dynamic stack that records the windings applied to it, most recent first: the entry
address, and the relocation passed along when the entry is a prompt. -/
def dynstack_log : dynstack_ops (List (Int × Option Int)) :=
  { scm_dynstack_wind_prompt := fun d walk reloc _ => (walk, some reloc) :: d,
    scm_dynstack_wind_1 := fun d walk => (walk, none) :: d }

/-- A memory holding at `100 .. 107` the buffer of a slice captured at addresses `60 .. 67`;
its cell `102` is the dynamic link of the frame at `65`, pointing to the frame at `61`. -/
def mem_slice : Mem := fun a => if a = 102 then 61 else 2 * a

/-- The snapshot of the slice `[60 .. 67]` whose buffer `mem_slice` holds at `100`. -/
def cont_slice : scm_vm_cont :=
  { sp := 67, fp := 65, ra := 70, stack_size := 8, stack_base := 100, reloc := 40,
    dynstack := 0, flags := 0 }

/-- A VM with base `10`, `40` usable cells, and the current frame at `fp = 20`. -/
def state_frame : VMState :=
  { vp := { ip := 71, sp := 22, fp := 20, stack_size := 40, stack_base := 10,
            stack_limit := 30, trace_level := 0,
            hooks := List.replicate SCM_VM_NUM_HOOKS SCM_BOOL_F, engine := 0 },
    mem := mem_slice }

/-- A freshly made VM of `1024` cells whose block lies at address `1000`. -/
def vm_fresh : scm_vm := (make_vm mem_double 5000 1000 1024 0).vp

/-- The hook machinery with no procedure installed on any hook and procedures that return at
once. -/
def hooks_idle : hook_ops :=
  { SCM_HOOK_PROCEDURES := fun _ => [],
    call_procedure := fun _ _ _ s => Outcome.returned s }

/-- The addresses of the live cells of a VM, `stack_base, stack_base + 1, ..., sp`, in
ascending order. -/
def live_cells (vp : scm_vm) : List Int :=
  List.map (fun (i : Nat) => vp.stack_base + (i : Int))
    (List.range (vp.sp + 1 - vp.stack_base).toNat)

/-- The memory `mem_double` with the address `500` of a VM record stored in cell `9`, the cell
below the base of `vm_small`. -/
def mem_block : Mem := fun a => if a = 9 then 500 else 2 * a

/-- The fresh VM `vm_fresh` together with the memory `make_vm` leaves: base `1001`, `1023`
usable cells, `stack_limit = 1512`, `sp = 1000`, null `fp`. -/
def state_fresh : VMState :=
  { vp := (make_vm mem_double 5000 1000 1024 0).vp,
    mem := (make_vm mem_double 5000 1000 1024 0).mem }

/-- A VM made by `make_vm` like `vm_fresh`, in the memory `mem_slice`. -/
def state_fresh_slice : VMState :=
  { vp := (make_vm mem_slice 5000 1000 1024 0).vp,
    mem := (make_vm mem_slice 5000 1000 1024 0).mem }

/-- A memory in which cell `22`, the dynamic-link slot of the frame at `25`, holds `990`, the
address of no frame of the stack `[10, 50)`, and cell `997` holds `0`. -/
def mem_wild : Mem := fun a => if a = 22 then 990 else if a = 997 then 0 else 2 * a

/-- A VM with base `10` and `40` usable cells, with the current frame at `fp = 25` and
`sp = 27`, over the memory `mem_wild`. -/
def state_wild : VMState :=
  { vp := { ip := 70, sp := 27, fp := 25, stack_size := 40, stack_base := 10,
            stack_limit := 30, trace_level := 0,
            hooks := List.replicate SCM_VM_NUM_HOOKS SCM_BOOL_F, engine := 0 },
    mem := mem_wild }

/-- The snapshot of the slice `[20 .. 27]` of `state_wild`, with its buffer at `100`. -/
def cont_wild : scm_vm_cont :=
  (scm_i_vm_capture_stack state_wild.mem 100 20 state_wild.vp.fp state_wild.vp.sp
    state_wild.vp.ip 0 0).1

/-- The VM of `state_wild` later on, with the current frame at `fp = 30` and `sp = 32`, in
the memory the capture of `cont_wild` left. -/
def state_wild_later : VMState :=
  { vp := { state_wild.vp with ip := 71, sp := 32, fp := 30 },
    mem := (scm_i_vm_capture_stack state_wild.mem 100 20 state_wild.vp.fp state_wild.vp.sp
      state_wild.vp.ip 0 0).2 }

/-! ## Builtins -/

/-- A Scheme value as the builtin lookup functions tell values apart: a symbol (symbols are
interned, so two symbols are `eq` exactly when their names are equal), an exact integer, the
boolean false, or a value of another kind. -/
inductive scm_val where
  | symbol (name : String)
  | integer (n : Int)
  | bool_f
  | other (w : Int)
deriving DecidableEq, Repr

/-- The enumerators `SCM_VM_BUILTIN_APPLY`, ... of `vm-builtins.h`, one for each entry of
`FOR_EACH_VM_BUILTIN`, in the order of the entries. -/
structure builtin_enum where
  APPLY : Nat
  VALUES : Nat
  ABORT_TO_PROMPT : Nat
  CALL_WITH_VALUES : Nat
  CALL_WITH_CURRENT_CONTINUATION : Nat
deriving DecidableEq, Repr

/-- The symbol `scm_sym_apply`, as set by `scm_init_vm_builtin_properties`. -/
def scm_sym_apply : String := "apply"

/-- The symbol `scm_sym_values`. -/
def scm_sym_values : String := "values"

/-- The symbol `scm_sym_abort_to_prompt`. -/
def scm_sym_abort_to_prompt : String := "abort-to-prompt"

/-- The symbol `scm_sym_call_with_values`. -/
def scm_sym_call_with_values : String := "call-with-values"

/-- The symbol `scm_sym_call_with_current_continuation`. -/
def scm_sym_call_with_current_continuation : String := "call-with-current-continuation"

/-- The enumerators of the builtin table, in table order. -/
def builtin_indices (E : builtin_enum) : List Nat :=
  [E.APPLY, E.VALUES, E.ABORT_TO_PROMPT, E.CALL_WITH_VALUES, E.CALL_WITH_CURRENT_CONTINUATION]

/-- The names of the builtin table, in table order. -/
def builtin_names : List String :=
  [scm_sym_apply, scm_sym_values, scm_sym_abort_to_prompt, scm_sym_call_with_values,
   scm_sym_call_with_current_continuation]

/-- Number of values of the C type `unsigned int`. -/
def UINT_RANGE : Int := 2 ^ 32

/-- Embedding of `scm_vm_builtin_name_to_index`: `SCM_VALIDATE_SYMBOL`, then one test
`if (scm_is_eq (name, scm_sym_...)) return scm_from_uint (SCM_VM_BUILTIN_...)` for each entry
of the table, then `return SCM_BOOL_F`. -/
def scm_vm_builtin_name_to_index (E : builtin_enum) (name : scm_val) : Except Error scm_val :=
  match name with
  | scm_val.symbol s =>
    if s = scm_sym_apply then Except.ok (scm_val.integer E.APPLY)
    else if s = scm_sym_values then Except.ok (scm_val.integer E.VALUES)
    else if s = scm_sym_abort_to_prompt then Except.ok (scm_val.integer E.ABORT_TO_PROMPT)
    else if s = scm_sym_call_with_values then Except.ok (scm_val.integer E.CALL_WITH_VALUES)
    else if s = scm_sym_call_with_current_continuation then
      Except.ok (scm_val.integer E.CALL_WITH_CURRENT_CONTINUATION)
    else Except.ok scm_val.bool_f
  | _ => Except.error (Error.wrong_type_arg "builtin-name->index" 1)

/-- Embedding of `scm_vm_builtin_index_to_name`: `SCM_VALIDATE_UINT_COPY`, then the `switch`
over the enumerators, whose `default` returns `SCM_BOOL_F`. -/
def scm_vm_builtin_index_to_name (E : builtin_enum) (index : scm_val) :
    Except Error scm_val :=
  match index with
  | scm_val.integer n =>
    if 0 ≤ n ∧ n < UINT_RANGE then
      let idx := n.toNat
      if idx = E.APPLY then Except.ok (scm_val.symbol scm_sym_apply)
      else if idx = E.VALUES then Except.ok (scm_val.symbol scm_sym_values)
      else if idx = E.ABORT_TO_PROMPT then Except.ok (scm_val.symbol scm_sym_abort_to_prompt)
      else if idx = E.CALL_WITH_VALUES then
        Except.ok (scm_val.symbol scm_sym_call_with_values)
      else if idx = E.CALL_WITH_CURRENT_CONTINUATION then
        Except.ok (scm_val.symbol scm_sym_call_with_current_continuation)
      else Except.ok scm_val.bool_f
    else Except.error (Error.out_of_range "builtin-index->name" 1)
  | _ => Except.error (Error.wrong_type_arg "builtin-index->name" 1)

/-- The enumerators as a C `enum` without initialisers numbers them: `0, 1, 2, 3, 4`. -/
def enum_standard : builtin_enum :=
  { APPLY := 0, VALUES := 1, ABORT_TO_PROMPT := 2, CALL_WITH_VALUES := 3,
    CALL_WITH_CURRENT_CONTINUATION := 4 }

/-! ## Hook procedures that leave the VM alone -/

/-- The hook procedures of `H` do not write the VM: they hand back the VM record and the
memory as they found them, whether they return or throw. -/
def hooks_keep_state (H : hook_ops) : Prop :=
  ∀ p frame args s,
    match H.call_procedure p frame args s with
    | Outcome.returned s1 => s1 = s
    | Outcome.raised _ s1 => s1 = s
    | Outcome.aborted => True

/-- A hook machinery in which the hook object `900` has the two procedures `77` and `78`, and
procedures return at once. -/
def hooks_two : hook_ops :=
  { SCM_HOOK_PROCEDURES := fun h => if h = 900 then [77, 78] else [],
    call_procedure := fun _ _ _ s => Outcome.returned s }

/-- The VM `vm_small` with the hook object `900` in slot `1` and trace level `3`, over the
memory `mem_double`. -/
def state_traced : VMState :=
  { vp := { vm_small with trace_level := 3, hooks := [SCM_BOOL_F, 900, SCM_BOOL_F] },
    mem := mem_double }

/-! ## The default stack size -/

/-- Conversion of an integer to the C type `int` (32 bits, two's complement): the identity on
`-2^31 .. 2^31 - 1`, reduction modulo `2^32` into that range elsewhere. -/
def to_int (v : Int) : Int := (v + 2 ^ 31) % 2 ^ 32 - 2 ^ 31

/-- Modelled from the spec: `scm_getenv_int` of `gc.c`, which reads the configuration
variable as an integer number of stack cells; `env` is the integer the variable holds, `none`
when the variable is not set, in which case the default passed along is the result. -/
def scm_getenv_int (env : Option Int) (default : Int) : Int :=
  match env with
  | some v => v
  | none => default

/-- Embedding of `initialize_default_stack_size`: the new value of the static variable
`vm_stack_size`.  `env` is what the environment variable `GUILE_STACK_SIZE` holds; the result
of `scm_getenv_int` is stored in the `int` variable `size`. -/
def initialize_default_stack_size (env : Option Int) (vm_stack_size : Int) : Int :=
  let size := to_int (scm_getenv_int env (to_int vm_stack_size))
  if size ≥ VM_MIN_STACK_SIZE then size else vm_stack_size

/-! ## Proper lists -/

/-- The elements of a proper list, `none` for a datum that is not a proper list. -/
def list_elements : scm_obj → Option (List SCM)
  | scm_obj.eol => some []
  | scm_obj.pair a d =>
    match list_elements d with
    | some xs => some (a :: xs)
    | none => none
  | scm_obj.other _ => none

/-- The improper list `(1 2 . 7)`. -/
def tail_improper : scm_obj := scm_obj.pair 1 (scm_obj.pair 2 (scm_obj.other 7))

/-- The proper list `(31 32)`. -/
def tail_proper : scm_obj := scm_obj.pair 31 (scm_obj.pair 32 scm_obj.eol)

/-! ## The current VM of a thread -/

/-- The flag `SCM_F_WIND_EXPLICITLY` of `dynwind.h`, bit 0 of a handler's flags. -/
def SCM_F_WIND_EXPLICITLY : Int := 1

/-- The handlers that `vm.c` registers with `scm_dynwind_unwind_handler_with_scm`. -/
inductive unwind_proc where
  | reinstate_vm
deriving DecidableEq, Repr

/-- An entry of the dynamic-extent stack of a thread: a frame opened by `scm_dynwind_begin`
with its flags, or an unwind handler with its argument and flags. -/
inductive dynwind_entry where
  | frame (flags : Int)
  | unwind_handler (proc : unwind_proc) (data : SCM) (flags : Int)
deriving DecidableEq, Repr

/-- The parts of `scm_i_thread` that `scm_call_with_vm` touches: the current-VM slot and the
dynamic-extent stack, innermost entry first. -/
structure scm_i_thread where
  vm : SCM
  dynwinds : List dynwind_entry
deriving DecidableEq, Repr

/-- Embedding of `reinstate_vm`. -/
def reinstate_vm (t : scm_i_thread) (vm : SCM) : scm_i_thread :=
  { t with vm := vm }

/-- Run a registered handler. -/
def run_unwind_proc (proc : unwind_proc) (t : scm_i_thread) (data : SCM) : scm_i_thread :=
  match proc with
  | unwind_proc.reinstate_vm => reinstate_vm t data

/-- Modelled from the spec: `scm_dynwind_begin (flags)` opens a dynamic extent on the
thread; with flags `0` the extent is non-rewindable. -/
def scm_dynwind_begin (t : scm_i_thread) (flags : Int) : scm_i_thread :=
  { t with dynwinds := dynwind_entry.frame flags :: t.dynwinds }

/-- Modelled from the spec: `scm_dynwind_unwind_handler_with_scm (proc, data, flags)` attaches
to the innermost extent a handler to be run when the extent is left. -/
def scm_dynwind_unwind_handler_with_scm (t : scm_i_thread) (proc : unwind_proc) (data : SCM)
    (flags : Int) : scm_i_thread :=
  { t with dynwinds := dynwind_entry.unwind_handler proc data flags :: t.dynwinds }

/-- Leaving the innermost extent: the entries above its frame are removed innermost first,
and a handler is run when its flags contain `SCM_F_WIND_EXPLICITLY`. -/
def unwind_to_frame : List dynwind_entry → scm_i_thread → scm_i_thread
  | [], t => { t with dynwinds := [] }
  | dynwind_entry.frame _ :: rest, t => { t with dynwinds := rest }
  | dynwind_entry.unwind_handler proc data flags :: rest, t =>
    unwind_to_frame rest
      (if Int.land flags SCM_F_WIND_EXPLICITLY ≠ 0 then run_unwind_proc proc t data else t)

/-- Modelled from the spec: `scm_dynwind_end ()` leaves the innermost dynamic extent by
normal control flow. -/
def scm_dynwind_end (t : scm_i_thread) : scm_i_thread :=
  unwind_to_frame t.dynwinds t

/-- How a call that yields a Scheme value ends. -/
inductive call_outcome where
  | returned (t : scm_i_thread) (ret : SCM)
  | raised (e : Error) (t : scm_i_thread)
  | aborted

/-- What `scm_call_with_vm` uses from elsewhere: the type tests behind `SCM_VALIDATE_VM` and
`SCM_VALIDATE_PROC`, and `scm_c_vm_run`, the run of a procedure on a VM with the arguments
given, seen as acting on the thread. -/
structure vm_run_ops where
  SCM_VM_P : SCM → Bool
  scm_procedure_p : SCM → Bool
  scm_c_vm_run : SCM → SCM → List SCM → scm_i_thread → call_outcome

/-- What `scm_call_with_vm` has set up when it reaches `scm_c_vm_run`: the thread, the
argument vector and the value of `flags`. -/
structure call_with_vm_entry where
  thread : scm_i_thread
  argv : List SCM
  flags : Int

/-- The first part of `scm_call_with_vm`, up to the call of `scm_c_vm_run`: validation of
the arguments, copy of the argument list, and, when the VM differs from the one installed,
the opening of a dynamic extent with the handler `reinstate_vm` and the installation of the
VM. -/
def call_with_vm_enter (R : vm_run_ops) (t : scm_i_thread) (vm proc : SCM) (args : scm_obj) :
    Except Error call_with_vm_entry :=
  if R.SCM_VM_P vm = false then Except.error (Error.wrong_type_arg "call-with-vm" 1)
  else if R.scm_procedure_p proc = false then
    Except.error (Error.wrong_type_arg "call-with-vm" 2)
  else
    let nargs := scm_ilength args
    if nargs < 0 then Except.error (Error.wrong_type_arg "call-with-vm" 3)
    else
      let argv := tail_values nargs.toNat args
      let prev_vm := t.vm
      let flags := if prev_vm = vm then 0 else SCM_F_WIND_EXPLICITLY
      if flags ≠ 0 then
        let t1 := scm_dynwind_begin t 0
        let t2 := scm_dynwind_unwind_handler_with_scm t1 unwind_proc.reinstate_vm prev_vm flags
        Except.ok { thread := { t2 with vm := vm }, argv := argv, flags := flags }
      else
        Except.ok { thread := t, argv := argv, flags := flags }

/-- Embedding of `scm_call_with_vm`. -/
def scm_call_with_vm (R : vm_run_ops) (t : scm_i_thread) (vm proc : SCM) (args : scm_obj) :
    call_outcome :=
  match call_with_vm_enter R t vm proc args with
  | Except.error e => call_outcome.raised e t
  | Except.ok entry =>
    match R.scm_c_vm_run vm proc entry.argv entry.thread with
    | call_outcome.returned t1 ret =>
      call_outcome.returned (if entry.flags ≠ 0 then scm_dynwind_end t1 else t1) ret
    | call_outcome.raised e t1 => call_outcome.raised e t1
    | call_outcome.aborted => call_outcome.aborted

/-- The run of a procedure hands the thread back, when it returns, with the current-VM slot
and the dynamic-extent stack as it found them. -/
def run_keeps_thread (R : vm_run_ops) : Prop :=
  ∀ vm proc argv t t1 ret,
    R.scm_c_vm_run vm proc argv t = call_outcome.returned t1 ret → t1 = t

/-- A run interface in which every word is a VM and a procedure and a run returns `0` at
once. -/
def run_idle : vm_run_ops :=
  { SCM_VM_P := fun _ => true,
    scm_procedure_p := fun _ => true,
    scm_c_vm_run := fun _ _ _ t => call_outcome.returned t 0 }

/-- A thread whose current VM is `800`, inside one rewindable extent. -/
def thread_main : scm_i_thread := { vm := 800, dynwinds := [dynwind_entry.frame 1] }

/-! ## Pushing values -/

theorem push_all_vp (s : VMState) (vs : List SCM) :
    (push_all s vs).vp = { s.vp with sp := s.vp.sp + (vs.length : Int) } := by
  induction vs generalizing s with
  | nil => simp [push_all]
  | cons v vs ih =>
    have h := ih (push s v)
    simp only [push_all, List.foldl_cons] at h ⊢
    rw [h]
    simp only [push, List.length_cons, Nat.cast_add, Nat.cast_one]
    congr 1
    omega

theorem push_all_mem_below (s : VMState) (vs : List SCM) (a : Int) (h : a ≤ s.vp.sp) :
    (push_all s vs).mem a = s.mem a := by
  induction vs generalizing s with
  | nil => simp [push_all]
  | cons v vs ih =>
    have h1 := ih (push s v) (by simp only [push]; omega)
    simp only [push_all, List.foldl_cons] at h1 ⊢
    rw [h1]
    have hne : a ≠ s.vp.sp + 1 := by omega
    simp [push, write, hne]

theorem push_all_mem_pushed (s : VMState) (vs : List SCM) (i : Nat) (h : i < vs.length) :
    (push_all s vs).mem (s.vp.sp + 1 + (i : Int)) = vs.get ⟨i, h⟩ := by
  induction vs generalizing s i with
  | nil => simp at h
  | cons v vs ih =>
    cases i with
    | zero =>
      have h1 := push_all_mem_below (push s v) vs (s.vp.sp + 1) (by simp [push])
      simp only [push_all, List.foldl_cons] at h1 ⊢
      rw [Int.ofNat_zero, add_zero, h1]
      simp [push, write]
    | succ j =>
      have hj : j < vs.length := by simpa using h
      have h1 := ih (push s v) j hj
      simp only [push_all, List.foldl_cons] at h1 ⊢
      have e : s.vp.sp + 1 + ((j + 1 : Nat) : Int) = (push s v).vp.sp + 1 + (j : Int) := by
        simp only [push, Nat.cast_add, Nat.cast_one]; omega
      rw [e, h1]
      simp

theorem read_array_length (mem : Mem) (p : Int) (n : Nat) : (read_array mem p n).length = n := by
  simp [read_array]

theorem read_array_get (mem : Mem) (p : Int) (n i : Nat) (h : i < (read_array mem p n).length) :
    (read_array mem p n).get ⟨i, h⟩ = mem (p + (i : Int)) := by
  simp [read_array]

/-! ## Capture and full reinstatement -/

/-- C2: for `sp ≥ base - 1`, `scm_i_vm_capture_stack` yields a snapshot with
`stack_size = sp - base + 1`, whose buffer holds at index `i` the cell at `base + i`, whose
saved `fp`, `sp`, `ra`, dynstack and flags are the arguments, and whose `reloc` is the address
of the buffer minus `base`; the source cells `[base .. sp]` are unchanged (the buffer, fresh
from the allocator, does not overlap them). -/
theorem capture_stack_snapshot (mem : Mem) (copy base fp sp ra dynstack flags : Int)
    (_hlive : base - 1 ≤ sp)
    (hfresh : copy + (sp - base + 1) ≤ base ∨ sp < copy) :
    (scm_i_vm_capture_stack mem copy base fp sp ra dynstack flags).1.stack_size = sp - base + 1 ∧
    (∀ i : Int, 0 ≤ i → i < sp - base + 1 →
      (scm_i_vm_capture_stack mem copy base fp sp ra dynstack flags).2
        ((scm_i_vm_capture_stack mem copy base fp sp ra dynstack flags).1.stack_base + i)
        = mem (base + i)) ∧
    (scm_i_vm_capture_stack mem copy base fp sp ra dynstack flags).1.fp = fp ∧
    (scm_i_vm_capture_stack mem copy base fp sp ra dynstack flags).1.sp = sp ∧
    (scm_i_vm_capture_stack mem copy base fp sp ra dynstack flags).1.ra = ra ∧
    (scm_i_vm_capture_stack mem copy base fp sp ra dynstack flags).1.dynstack = dynstack ∧
    (scm_i_vm_capture_stack mem copy base fp sp ra dynstack flags).1.flags = flags ∧
    (scm_i_vm_capture_stack mem copy base fp sp ra dynstack flags).1.stack_base = copy ∧
    (scm_i_vm_capture_stack mem copy base fp sp ra dynstack flags).1.reloc = copy - base ∧
    (∀ a : Int, base ≤ a → a ≤ sp →
      (scm_i_vm_capture_stack mem copy base fp sp ra dynstack flags).2 a = mem a) := by
  refine ⟨rfl, ?_, rfl, rfl, rfl, rfl, rfl, rfl, rfl, ?_⟩
  · intro i h0 h1
    simp only [scm_i_vm_capture_stack, memcpy]
    rw [if_pos (by constructor <;> omega)]
    congr 1
    omega
  · intro a h0 h1
    simp only [scm_i_vm_capture_stack, memcpy]
    rw [if_neg (by omega)]

/-- C2, at the stack `[10 .. 12]` of `mem_double` copied to address `100`: the middle cell of
the buffer holds the middle cell of the stack. -/
theorem capture_stack_snapshot_witness :
    (scm_i_vm_capture_stack mem_double 100 10 11 12 70 0 0).2 (100 + 1) = mem_double (10 + 1) :=
  (capture_stack_snapshot mem_double 100 10 11 12 70 0 0 (by decide) (by decide)).2.1 1
    (by decide) (by decide)

/-- C1: capture followed by reinstatement.  Let `S` be the snapshot of the stack `[base .. sp]`
taken in memory `mem_c`, and `s` any later state of the same VM (same base, any cursors, any
stack contents) in which the buffer of `S` still holds what the capture put there.  If the
space check passes for `n` arguments at `argv`, `vm_return_to_continuation` returns a state in
which the cells `[base .. sp]` hold what they held at capture time, the next three cells hold
`SCM_BOOL_F`, the `n` cells after them hold `argv[0 .. n)` in order, and `fp = S.fp`,
`sp = S.sp + 3 + n`, `ip = S.ra`. -/
theorem capture_reinstate_round_trip (mem_c : Mem) (copy base fp sp ra dynstack flags : Int)
    (_hlive : base - 1 ≤ sp) (s : VMState) (n : Nat) (argv : Int)
    (hsame : s.vp.stack_base = base)
    (hbuf : ∀ i : Int, 0 ≤ i → i < sp - base + 1 →
      s.mem (copy + i)
        = (scm_i_vm_capture_stack mem_c copy base fp sp ra dynstack flags).2 (copy + i))
    (hspace : ¬ s.vp.stack_size
      < (scm_i_vm_capture_stack mem_c copy base fp sp ra dynstack flags).1.stack_size
          + (n : Int) + 3) :
    ∃ s1 : VMState,
      vm_return_to_continuation s
          (scm_i_vm_capture_stack mem_c copy base fp sp ra dynstack flags).1 n argv
        = Outcome.returned s1 ∧
      (∀ a : Int, base ≤ a → a ≤ sp → s1.mem a = mem_c a) ∧
      (∀ j : Int, 0 ≤ j → j < 3 → s1.mem (sp + 1 + j) = SCM_BOOL_F) ∧
      (∀ i : Nat, i < n → s1.mem (sp + 4 + (i : Int)) = s.mem (argv + (i : Int))) ∧
      s1.vp.fp = fp ∧ s1.vp.sp = sp + 3 + (n : Int) ∧ s1.vp.ip = ra := by
  refine ⟨_, by rw [vm_return_to_continuation, if_neg hspace], ?_, ?_, ?_, ?_, ?_, ?_⟩
  · intro a h0 h1
    simp only []
    rw [push_all_mem_below _ _ _ (by rw [push_all_vp]; simp [scm_i_vm_capture_stack]; omega),
      push_all_mem_below _ _ _ (by simp [scm_i_vm_capture_stack]; omega)]
    simp only [memcpy, hsame]
    rw [if_pos (by simp only [scm_i_vm_capture_stack]; constructor <;> omega)]
    have := hbuf (a - base) (by omega) (by omega)
    simp only [scm_i_vm_capture_stack, memcpy] at this ⊢
    rw [this, if_pos (by constructor <;> omega)]
    congr 1
    omega
  · intro j h0 h1
    simp only []
    rw [push_all_mem_below _ _ _ (by rw [push_all_vp]; simp [scm_i_vm_capture_stack]; omega)]
    have hj : j.toNat < (List.replicate 3 SCM_BOOL_F).length := by simp; omega
    have := push_all_mem_pushed
      { vp := { s.vp with sp := sp, fp := fp },
        mem := memcpy s.mem s.vp.stack_base copy (sp - base + 1) }
      (List.replicate 3 SCM_BOOL_F) j.toNat hj
    simp only [Int.toNat_of_nonneg h0] at this
    simp only [scm_i_vm_capture_stack]
    rw [this]
    simp only [List.get_eq_getElem, List.getElem_replicate]
  · intro i hi
    simp only []
    have hi1 : i < (read_array s.mem argv n).length := by rw [read_array_length]; exact hi
    have := push_all_mem_pushed
      (push_all
        { vp := { s.vp with sp := sp, fp := fp },
          mem := memcpy s.mem s.vp.stack_base copy (sp - base + 1) }
        (List.replicate 3 SCM_BOOL_F))
      (read_array s.mem argv n) i hi1
    rw [read_array_get, push_all_vp] at this
    simp only [List.length_replicate, Nat.cast_ofNat] at this
    simp only [scm_i_vm_capture_stack]
    rw [← this]
    congr 1
    omega
  · simp [push_all_vp, scm_i_vm_capture_stack]
  · simp only [push_all_vp, scm_i_vm_capture_stack, List.length_replicate, read_array_length]
    push_cast
    omega
  · rfl

/-- C1, at the snapshot of the stack `[10 .. 12]` of `mem_double`, reinstated into
`state_later` (whose stack cells were all overwritten) with the two arguments at `200`. -/
theorem capture_reinstate_round_trip_witness :
    ∃ s1 : VMState,
      vm_return_to_continuation state_later
          (scm_i_vm_capture_stack mem_double 100 10 11 12 70 0 0).1 2 200
        = Outcome.returned s1 ∧
      s1.mem 11 = mem_double 11 ∧ s1.mem 14 = SCM_BOOL_F ∧
      s1.mem 17 = state_later.mem 201 ∧ s1.vp.fp = 11 ∧ s1.vp.sp = 17 ∧ s1.vp.ip = 70 :=
  (capture_reinstate_round_trip mem_double 100 10 11 12 70 0 0 (by decide) state_later 2 200
      rfl
      (by
        intro i h0 h1
        have h : ¬ (100 + i < 100) := by omega
        simp only [state_later, mem_captured, scm_i_capture_current_stack, state_small,
          vm_small, if_neg h])
      (by decide)).imp
    (fun _ h =>
      ⟨h.1, h.2.1 11 (by decide) (by decide), h.2.2.1 1 (by decide) (by decide),
        h.2.2.2.1 1 (by decide), h.2.2.2.2.1, h.2.2.2.2.2.1, h.2.2.2.2.2.2⟩)

/-- C3 as stated fails: reinstating `cont_large` into `state_small` needs `7 + 0 + 3` cells
where `8` are usable, and the call leaves by the throw of `scm_misc_error`, not by the
`VM: Stack overflow` throw of `vm_error_stack_overflow`. -/
theorem return_to_continuation_not_stack_overflow :
    state_small.vp.stack_size < cont_large.stack_size + ((0 : Nat) : Int) + 3 ∧
    ¬ ∃ s1 : VMState,
      vm_return_to_continuation state_small cont_large 0 0
        = Outcome.raised (Error.vm_error "VM: Stack overflow") s1 := by
  refine ⟨by decide, ?_⟩
  rintro ⟨s1, h⟩
  have hlt : state_small.vp.stack_size < cont_large.stack_size + ((0 : Nat) : Int) + 3 := by
    decide
  rw [vm_return_to_continuation, if_pos hlt] at h
  cases h

/-- C3, amended: `vm_return_to_continuation` leaves by a throw exactly when
`vp->stack_size < cp->stack_size + n + 3`; the throw is the `scm_misc_error` of subroutine
`vm-engine` with message `not enough space to reinstate continuation`, and it happens with
the whole VM state (cursors, stack cells, and also `stack_limit`) as it was on entry; when
`vp->stack_size ≥ cp->stack_size + n + 3` the call returns. -/
theorem return_to_continuation_space_check (s : VMState) (cp : scm_vm_cont) (n : Nat)
    (argv : Int) :
    ((∃ e s1, vm_return_to_continuation s cp n argv = Outcome.raised e s1) ↔
      s.vp.stack_size < cp.stack_size + (n : Int) + 3) ∧
    (s.vp.stack_size < cp.stack_size + (n : Int) + 3 →
      vm_return_to_continuation s cp n argv
        = Outcome.raised
            (Error.misc_error "vm-engine" "not enough space to reinstate continuation") s) ∧
    (cp.stack_size + (n : Int) + 3 ≤ s.vp.stack_size →
      ∃ s1, vm_return_to_continuation s cp n argv = Outcome.returned s1) := by
  by_cases h : s.vp.stack_size < cp.stack_size + (n : Int) + 3
  · have hr : vm_return_to_continuation s cp n argv
        = Outcome.raised
            (Error.misc_error "vm-engine" "not enough space to reinstate continuation") s := by
      rw [vm_return_to_continuation, if_pos h]
    exact ⟨⟨fun _ => h, fun _ => ⟨_, s, hr⟩⟩, fun _ => hr, fun h1 => absurd h (by omega)⟩
  · refine ⟨⟨?_, fun h1 => absurd h1 h⟩, fun h1 => absurd h1 h, fun _ => ?_⟩
    · rintro ⟨e, s1, h1⟩
      rw [vm_return_to_continuation, if_neg h] at h1
      cases h1
    · rw [vm_return_to_continuation, if_neg h]
      exact ⟨_, rfl⟩

/-- C3, amended, at `state_small` and `cont_large`: the throw is the `scm_misc_error`, raised
in the unchanged state. -/
theorem return_to_continuation_space_check_witness :
    vm_return_to_continuation state_small cont_large 0 0
      = Outcome.raised
          (Error.misc_error "vm-engine" "not enough space to reinstate continuation")
          state_small :=
  (return_to_continuation_space_check state_small cont_large 0 0).2.1 (by decide)

/-! ## Partial reinstatement -/

theorem relocate_frames_chain (L : frame_layout) (reloc base : Int) (mem0 : Mem)
    (fs : List Int) :
    fs.Nodup → ∀ (fp : Int) (mem : Mem) (fuel : Nat),
      frame_chain L mem0 reloc base fp fs →
      (∀ f ∈ fs, mem (f + L.dynamic_link) = mem0 (f + L.dynamic_link)) →
      fs.length ≤ fuel →
      ∃ mem1, relocate_frames L reloc base fuel fp mem = some mem1 ∧
        ∀ a, mem1 a
          = if a ∈ fs.map (fun f => f + L.dynamic_link) then mem0 a + reloc else mem a := by
  induction fs with
  | nil =>
    intro _ fp mem fuel hc _ _
    simp only [frame_chain] at hc
    refine ⟨mem, ?_, by simp⟩
    cases fuel <;> simp [relocate_frames, hc]
  | cons f fs ih =>
    intro hnd fp mem fuel hc hm hf
    obtain ⟨hfp, hlow, hrest⟩ := hc
    subst hfp
    obtain ⟨hnotin, hnd1⟩ := List.nodup_cons.mp hnd
    cases fuel with
    | zero => simp at hf
    | succ k =>
      have hk : fs.length ≤ k := by simpa using hf
      have hhead : mem (f + L.dynamic_link) = mem0 (f + L.dynamic_link) :=
        hm f (List.mem_cons_self _ _)
      have hnext : SCM_FRAME_DYNAMIC_LINK L
            (SCM_FRAME_SET_DYNAMIC_LINK L mem f (SCM_FRAME_DYNAMIC_LINK L mem f + reloc)) f
          = SCM_FRAME_DYNAMIC_LINK L mem0 f + reloc := by
        simp [SCM_FRAME_DYNAMIC_LINK, SCM_FRAME_SET_DYNAMIC_LINK, write, hhead]
      have hm1 : ∀ g ∈ fs,
          (SCM_FRAME_SET_DYNAMIC_LINK L mem f (SCM_FRAME_DYNAMIC_LINK L mem f + reloc))
              (g + L.dynamic_link)
            = mem0 (g + L.dynamic_link) := by
        intro g hg
        have hne : g ≠ f := fun h => hnotin (h ▸ hg)
        have hne1 : g + L.dynamic_link ≠ f + L.dynamic_link := fun h => hne (by omega)
        simp only [SCM_FRAME_SET_DYNAMIC_LINK, write, if_neg hne1]
        exact hm g (List.mem_cons_of_mem _ hg)
      obtain ⟨mem1, hrun, hval⟩ := ih hnd1 _ _ k (hnext ▸ hrest) hm1 hk
      refine ⟨mem1, ?_, ?_⟩
      · simp only [relocate_frames, if_pos hlow]
        exact hrun
      · intro a
        rw [hval a]
        by_cases ha : a = f + L.dynamic_link
        · subst ha
          have hnot : f + L.dynamic_link ∉ fs.map (fun f => f + L.dynamic_link) := by
            intro h
            obtain ⟨g, hg, hge⟩ := List.mem_map.mp h
            have : g = f := by omega
            exact hnotin (this ▸ hg)
          rw [if_neg hnot]
          simp [SCM_FRAME_SET_DYNAMIC_LINK, SCM_FRAME_DYNAMIC_LINK, write, hhead]
        · have hiff : a ∈ (f :: fs).map (fun f => f + L.dynamic_link)
              ↔ a ∈ fs.map (fun f => f + L.dynamic_link) := by
            simp [ha]
          by_cases hin : a ∈ fs.map (fun f => f + L.dynamic_link)
          · rw [if_pos hin, if_pos (hiff.mpr hin)]
          · rw [if_neg hin, if_neg (fun h => hin (hiff.mp h))]
            simp [SCM_FRAME_SET_DYNAMIC_LINK, write, ha]

theorem frame_chain_lower (L : frame_layout) (mem : Mem) (reloc base : Int) (fs : List Int) :
    ∀ fp, frame_chain L mem reloc base fp fs → ∀ f ∈ fs, SCM_FRAME_LOWER_ADDRESS L f > base := by
  induction fs with
  | nil => intro _ _ f hf; simp at hf
  | cons g fs ih =>
    intro fp hc f hf
    obtain ⟨hfp, hlow, hrest⟩ := hc
    rcases List.mem_cons.mp hf with h | h
    · rw [h, hfp]; exact hlow
    · exact ih _ hrest f h

/-- C4: result of a successful partial reinstatement.  With `base1` the locals address of the
current frame and `reloc = cp->reloc + (base1 - cp->stack_base)`, let `fs` be the chain of
frames of the copied slice starting at `cp->fp + reloc` whose lower address is above `base1`
(each frame met once).  When the space check passes, `vm_reinstate_partial_continuation`
returns, for any iteration bound not below the length of the chain, a state in which every
cell `base1 + i` of the slice holds `cp->stack_base[i]`, plus `reloc` when the cell is the
dynamic-link slot of a frame of the chain; the `n` cells above the slice hold `argv[0 .. n)`;
`sp = base1 - 1 + cp->stack_size + n`, `fp = cp->fp + reloc`, `ip = cp->ra`; the cells below
`base1` are unchanged; and the dynamic stack is the one obtained by winding the captured
entries in order. -/
theorem reinstate_partial_result {D : Type} (L : frame_layout) (ops : dynstack_ops D)
    (fuel : Nat) (s : VMState) (cp : scm_vm_cont) (n : Nat) (argv : Int)
    (entries : List dynstack_entry) (d : D) (registers : Int)
    (base1 reloc : Int) (fs : List Int)
    (hbase : base1 = SCM_FRAME_LOCALS_ADDRESS L s.vp.fp)
    (hreloc : reloc = cp.reloc + (base1 - cp.stack_base))
    (hsize : 0 ≤ cp.stack_size)
    (hlayout : L.lower ≤ L.dynamic_link)
    (hspace : ¬ (base1 - s.vp.stack_base) + cp.stack_size + (n : Int) + 1 > s.vp.stack_size)
    (hchain : frame_chain L (memcpy s.mem base1 cp.stack_base cp.stack_size) reloc base1
      (cp.fp + reloc) fs)
    (hnodup : fs.Nodup) (hfuel : fs.length ≤ fuel) :
    ∃ s1 : VMState,
      vm_reinstate_partial_continuation L ops fuel s cp n argv entries d registers
        = some (Outcome.returned (s1, wind_entries ops reloc registers d entries)) ∧
      (∀ i : Int, 0 ≤ i → i < cp.stack_size →
        s1.mem (base1 + i)
          = if base1 + i ∈ fs.map (fun f => f + L.dynamic_link)
            then s.mem (cp.stack_base + i) + reloc else s.mem (cp.stack_base + i)) ∧
      (∀ i : Nat, i < n → s1.mem (base1 + cp.stack_size + (i : Int)) = s.mem (argv + (i : Int))) ∧
      s1.vp.sp = base1 - 1 + cp.stack_size + (n : Int) ∧
      s1.vp.fp = cp.fp + reloc ∧ s1.vp.ip = cp.ra ∧
      (∀ a : Int, a < base1 → s1.mem a = s.mem a) := by
  obtain ⟨mem2, hrun, hval⟩ :=
    relocate_frames_chain L reloc base1 (memcpy s.mem base1 cp.stack_base cp.stack_size) fs
      hnodup (cp.fp + reloc) (memcpy s.mem base1 cp.stack_base cp.stack_size) fuel hchain
      (fun _ _ => rfl) hfuel
  have hcall : vm_reinstate_partial_continuation L ops fuel s cp n argv entries d registers
      = some (Outcome.returned
          (push_all
            { vp := { s.vp with sp := base1 - 1 + cp.stack_size, fp := cp.fp + reloc,
                                ip := cp.ra },
              mem := mem2 }
            (read_array s.mem argv n),
           wind_entries ops reloc registers d entries)) := by
    subst hbase hreloc
    simp only [vm_reinstate_partial_continuation, if_neg hspace, hrun]
  refine ⟨_, hcall, ?_, ?_, ?_, ?_, ?_, ?_⟩
  · intro i h0 h1
    rw [push_all_mem_below _ _ _ (by simp only []; omega)]
    show mem2 (base1 + i) = _
    rw [hval]
    have hcopy : memcpy s.mem base1 cp.stack_base cp.stack_size (base1 + i)
        = s.mem (cp.stack_base + i) := by
      simp only [memcpy]
      rw [if_pos (by constructor <;> omega)]
      congr 1
      omega
    rw [hcopy]
  · intro i hi
    have hi1 : i < (read_array s.mem argv n).length := by rw [read_array_length]; exact hi
    have := push_all_mem_pushed
      { vp := { s.vp with sp := base1 - 1 + cp.stack_size, fp := cp.fp + reloc, ip := cp.ra },
        mem := mem2 }
      (read_array s.mem argv n) i hi1
    rw [read_array_get] at this
    rw [← this]
    congr 1
    simp only []
    omega
  · simp only [push_all_vp, read_array_length]
  · simp only [push_all_vp]
  · simp only [push_all_vp]
  · intro a ha
    rw [push_all_mem_below _ _ _ (by simp only []; omega)]
    show mem2 a = _
    rw [hval]
    have hnot : a ∉ fs.map (fun f => f + L.dynamic_link) := by
      intro h
      obtain ⟨f, hf, hfe⟩ := List.mem_map.mp h
      have := frame_chain_lower L _ reloc base1 fs _ hchain f hf
      simp only [SCM_FRAME_LOWER_ADDRESS] at this
      omega
    rw [if_neg hnot]
    simp only [memcpy]
    rw [if_neg (by omega)]

/-- C4, at the slice snapshot `cont_slice` reinstated on the frame at `20` of `state_frame`
with one argument: the relocation is `-40`, the chain is the single frame at `25`, whose
dynamic link (cell `22`) becomes `61 - 40`. -/
theorem reinstate_partial_result_witness :
    ∃ s1 : VMState,
      vm_reinstate_partial_continuation layout_three dynstack_log 1 state_frame cont_slice 1 200
          [⟨300, false⟩, ⟨301, true⟩] [] 0
        = some (Outcome.returned (s1, [(301, some (-40)), (300, none)])) ∧
      s1.mem 22 = 21 ∧ s1.mem 23 = mem_slice 103 ∧ s1.mem 28 = mem_slice 200 ∧
      s1.vp.sp = 28 ∧ s1.vp.fp = 25 ∧ s1.vp.ip = 70 ∧ s1.mem 19 = mem_slice 19 :=
  (reinstate_partial_result layout_three dynstack_log 1 state_frame cont_slice 1 200
      [⟨300, false⟩, ⟨301, true⟩] [] 0 20 (-40) [25] rfl (by decide) (by decide) (by decide)
      (by decide) (by simp only [frame_chain]; decide) (by decide) (by decide)).imp
    (fun _ h =>
      ⟨h.1, (h.2.1 2 (by decide) (by decide)).trans (by decide),
        (h.2.1 3 (by decide) (by decide)).trans (by decide),
        h.2.2.1 0 (by decide), h.2.2.2.1, h.2.2.2.2.1, h.2.2.2.2.2.1,
        h.2.2.2.2.2.2 19 (by decide)⟩)

/-- C5 as stated fails: reinstating `cont_slice` with `30` arguments on the frame at `20` of
`state_frame` needs `(20 - 10) + 8 + 30 + 1` cells where `40` are usable, and the call leaves
by the throw of `scm_misc_error`, not by the `VM: Stack overflow` throw. -/
theorem reinstate_partial_not_stack_overflow :
    (SCM_FRAME_LOCALS_ADDRESS layout_three state_frame.vp.fp - state_frame.vp.stack_base)
        + cont_slice.stack_size + ((30 : Nat) : Int) + 1 > state_frame.vp.stack_size ∧
    ¬ ∃ r : VMState × List (Int × Option Int),
      vm_reinstate_partial_continuation layout_three dynstack_log 0 state_frame cont_slice 30
          200 [] [] 0
        = some (Outcome.raised (Error.vm_error "VM: Stack overflow") r) := by
  have hgt : (SCM_FRAME_LOCALS_ADDRESS layout_three state_frame.vp.fp
        - state_frame.vp.stack_base)
      + cont_slice.stack_size + ((30 : Nat) : Int) + 1 > state_frame.vp.stack_size := by
    decide
  refine ⟨hgt, ?_⟩
  rintro ⟨r, h⟩
  rw [vm_reinstate_partial_continuation, if_pos hgt] at h
  cases h

/-- C5, amended: with `base1` the locals address of the current frame,
`vm_reinstate_partial_continuation` leaves by a throw exactly when
`(base1 - vp->stack_base) + cp->stack_size + n + 1 > vp->stack_size`; the throw is the
`scm_misc_error` of subroutine `vm-engine` with message
`not enough space to instate partial continuation`, and it happens with the VM state
(cursors, stack cells, `stack_limit`) and the dynamic stack as they were on entry. -/
theorem reinstate_partial_space_check {D : Type} (L : frame_layout) (ops : dynstack_ops D)
    (fuel : Nat) (s : VMState) (cp : scm_vm_cont) (n : Nat) (argv : Int)
    (entries : List dynstack_entry) (d : D) (registers : Int) :
    ((∃ e r, vm_reinstate_partial_continuation L ops fuel s cp n argv entries d registers
        = some (Outcome.raised e r)) ↔
      (SCM_FRAME_LOCALS_ADDRESS L s.vp.fp - s.vp.stack_base) + cp.stack_size + (n : Int) + 1
        > s.vp.stack_size) ∧
    ((SCM_FRAME_LOCALS_ADDRESS L s.vp.fp - s.vp.stack_base) + cp.stack_size + (n : Int) + 1
        > s.vp.stack_size →
      vm_reinstate_partial_continuation L ops fuel s cp n argv entries d registers
        = some (Outcome.raised
            (Error.misc_error "vm-engine" "not enough space to instate partial continuation")
            (s, d))) := by
  by_cases h : (SCM_FRAME_LOCALS_ADDRESS L s.vp.fp - s.vp.stack_base) + cp.stack_size
      + (n : Int) + 1 > s.vp.stack_size
  · have hr : vm_reinstate_partial_continuation L ops fuel s cp n argv entries d registers
        = some (Outcome.raised
            (Error.misc_error "vm-engine" "not enough space to instate partial continuation")
            (s, d)) := by
      rw [vm_reinstate_partial_continuation, if_pos h]
    exact ⟨⟨fun _ => h, fun _ => ⟨_, _, hr⟩⟩, fun _ => hr⟩
  · refine ⟨⟨?_, fun h1 => absurd h1 h⟩, fun h1 => absurd h1 h⟩
    rintro ⟨e, r, h1⟩
    rw [vm_reinstate_partial_continuation, if_neg h] at h1
    simp only [] at h1
    split at h1 <;> cases h1

/-- C5, amended, at `state_frame`, `cont_slice` and `30` arguments: the throw is the
`scm_misc_error`, raised with the state and the dynamic stack unchanged. -/
theorem reinstate_partial_space_check_witness :
    vm_reinstate_partial_continuation layout_three dynstack_log 0 state_frame cont_slice 30
        200 [] [] 0
      = some (Outcome.raised
          (Error.misc_error "vm-engine" "not enough space to instate partial continuation")
          (state_frame, [])) :=
  (reinstate_partial_space_check layout_three dynstack_log 0 state_frame cont_slice 30 200
    [] [] 0).2 (by decide)

/-! ## The stack overflow handler -/

/-- C6: when `stack_limit < stack_base + stack_size`, `vm_error_stack_overflow` leaves by the
`VM: Stack overflow` throw with `stack_limit` set to `stack_base + stack_size` and every other
field of the VM as before; when `stack_limit ≥ stack_base + stack_size` it aborts the process;
in neither case does it return. -/
theorem stack_overflow_handler (vp : scm_vm) :
    (vp.stack_limit < vp.stack_base + vp.stack_size →
      ∃ vp1, vm_error_stack_overflow vp
          = Outcome.raised (Error.vm_error "VM: Stack overflow") vp1 ∧
        vp1.stack_limit = vp.stack_base + vp.stack_size ∧
        vp1.ip = vp.ip ∧ vp1.sp = vp.sp ∧ vp1.fp = vp.fp ∧ vp1.stack_size = vp.stack_size ∧
        vp1.stack_base = vp.stack_base ∧ vp1.trace_level = vp.trace_level ∧
        vp1.hooks = vp.hooks ∧ vp1.engine = vp.engine) ∧
    (vp.stack_base + vp.stack_size ≤ vp.stack_limit →
      vm_error_stack_overflow vp = Outcome.aborted) ∧
    (∀ vp1, vm_error_stack_overflow vp ≠ Outcome.returned vp1) := by
  refine ⟨fun h => ⟨{ vp with stack_limit := vp.stack_base + vp.stack_size }, ?_,
    rfl, rfl, rfl, rfl, rfl, rfl, rfl, rfl, rfl⟩, fun h => ?_, fun vp1 h => ?_⟩
  · rw [vm_error_stack_overflow, if_pos h, vm_error]
  · rw [vm_error_stack_overflow, if_neg (by omega)]
  · rw [vm_error_stack_overflow] at h
    split at h
    · rw [vm_error] at h; cases h
    · cases h

/-- C6, at the fresh VM `vm_fresh` (limit `1512`, base `1001`, capacity `1023`): the first
overflow throws with the limit raised to `2024`. -/
theorem stack_overflow_handler_witness :
    ∃ vp1, vm_error_stack_overflow vm_fresh
        = Outcome.raised (Error.vm_error "VM: Stack overflow") vp1 ∧
      vp1.stack_limit = 2024 ∧ vp1.sp = 1000 ∧ vp1.stack_size = 1023 :=
  ((stack_overflow_handler vm_fresh).1 (by decide)).imp
    (fun _ h => ⟨h.1, h.2.1, h.2.2.2.1, h.2.2.2.2.2.1⟩)

/-! ## Effect of each operation on the fields of the VM -/

theorem return_to_continuation_returned (s s1 : VMState) (cp : scm_vm_cont) (n : Nat)
    (argv : Int) (h : vm_return_to_continuation s cp n argv = Outcome.returned s1) :
    cp.stack_size + (n : Int) + 3 ≤ s.vp.stack_size ∧
    s1.vp = { s.vp with sp := cp.sp + 3 + (n : Int), fp := cp.fp, ip := cp.ra } := by
  rw [vm_return_to_continuation] at h
  split at h
  · cases h
  · rename_i hc
    refine ⟨by omega, ?_⟩
    injection h with h
    subst h
    simp only [push_all_vp, List.length_replicate, read_array_length]
    push_cast
    rfl

theorem reinstate_partial_returned {D : Type} (L : frame_layout) (ops : dynstack_ops D)
    (fuel : Nat) (s s1 : VMState) (cp : scm_vm_cont) (n : Nat) (argv : Int)
    (entries : List dynstack_entry) (d d1 : D) (registers : Int)
    (h : vm_reinstate_partial_continuation L ops fuel s cp n argv entries d registers
      = some (Outcome.returned (s1, d1))) :
    (SCM_FRAME_LOCALS_ADDRESS L s.vp.fp - s.vp.stack_base) + cp.stack_size + (n : Int) + 1
      ≤ s.vp.stack_size ∧
    s1.vp = { s.vp with
      sp := SCM_FRAME_LOCALS_ADDRESS L s.vp.fp - 1 + cp.stack_size + (n : Int),
      fp := cp.fp + (cp.reloc + (SCM_FRAME_LOCALS_ADDRESS L s.vp.fp - cp.stack_base)),
      ip := cp.ra } := by
  rw [vm_reinstate_partial_continuation] at h
  split at h
  · cases h
  · rename_i hc
    refine ⟨by omega, ?_⟩
    simp only [] at h
    split at h
    · cases h
    · injection h with h
      injection h with h
      injection h with h h2
      subst h
      simp only [push_all_vp, read_array_length]

/-! ## The fresh VM -/

/-- C9: for a configured stack size `N` (at least `VM_MIN_STACK_SIZE`), `make_vm` requests a
block of `N` cells, stores the address of the VM record in cell 0 of the block, and returns a
VM with `stack_base = block + 1`, `stack_size = N - 1`,
`stack_limit = stack_base + stack_size - 512`, `sp = stack_base - 1`, null `ip` and `fp`,
`trace_level = 0`, the default engine, and `SCM_BOOL_F` in every hook slot; no other cell of
memory is written. -/
theorem make_vm_fresh (mem : Mem) (vp_addr block N engine : Int)
    (_hN : VM_MIN_STACK_SIZE ≤ N) :
    (make_vm mem vp_addr block N engine).block = block ∧
    (make_vm mem vp_addr block N engine).block_cells = N ∧
    (make_vm mem vp_addr block N engine).mem block = vp_addr ∧
    (make_vm mem vp_addr block N engine).vp_addr = vp_addr ∧
    (make_vm mem vp_addr block N engine).vp.stack_base = block + 1 ∧
    (make_vm mem vp_addr block N engine).vp.stack_size = N - 1 ∧
    (make_vm mem vp_addr block N engine).vp.stack_limit
      = (make_vm mem vp_addr block N engine).vp.stack_base
        + (make_vm mem vp_addr block N engine).vp.stack_size - 512 ∧
    (make_vm mem vp_addr block N engine).vp.sp
      = (make_vm mem vp_addr block N engine).vp.stack_base - 1 ∧
    (make_vm mem vp_addr block N engine).vp.ip = 0 ∧
    (make_vm mem vp_addr block N engine).vp.fp = 0 ∧
    (make_vm mem vp_addr block N engine).vp.trace_level = 0 ∧
    (make_vm mem vp_addr block N engine).vp.engine = engine ∧
    (make_vm mem vp_addr block N engine).vp.hooks.length = SCM_VM_NUM_HOOKS ∧
    (∀ h ∈ (make_vm mem vp_addr block N engine).vp.hooks, h = SCM_BOOL_F) ∧
    (∀ a : Int, a ≠ block → (make_vm mem vp_addr block N engine).mem a = mem a) := by
  refine ⟨rfl, rfl, ?_, rfl, rfl, rfl, rfl, rfl, rfl, rfl, rfl, rfl, ?_, ?_, ?_⟩
  · simp [make_vm, write]
  · simp [make_vm]
  · intro h hh
    simp only [make_vm] at hh
    exact List.eq_of_mem_replicate hh
  · intro a ha
    simp [make_vm, write, ha]

/-- C9, at `N = 1024` with the block at `1000` and the VM record at `5000`. -/
theorem make_vm_fresh_witness :
    (make_vm mem_double 5000 1000 1024 0).mem 1000 = 5000 ∧
    (make_vm mem_double 5000 1000 1024 0).vp.stack_size = 1024 - 1 ∧
    (make_vm mem_double 5000 1000 1024 0).vp.ip = 0 :=
  ⟨(make_vm_fresh mem_double 5000 1000 1024 0 (by decide)).2.2.1,
    (make_vm_fresh mem_double 5000 1000 1024 0 (by decide)).2.2.2.2.2.1,
    (make_vm_fresh mem_double 5000 1000 1024 0 (by decide)).2.2.2.2.2.2.2.2.1⟩

/-! ## Marking the stack -/

theorem mark_words_eq_foldl {M : Type} (push : SCM → M → M) (mem : Mem) (k : Nat) :
    ∀ (word : Int) (m : M),
      mark_words push mem k word m
        = (List.map (fun (i : Nat) => word + (i : Int)) (List.range k)).foldl
            (fun m a => push (mem a) m) m := by
  induction k with
  | zero => intro word m; simp [mark_words]
  | succ k ih =>
    intro word m
    rw [mark_words, ih, List.range_succ_eq_map]
    simp only [List.map_cons, List.foldl_cons, List.map_map, Nat.cast_zero, add_zero]
    congr 2
    funext i
    simp only [Function.comp, Nat.cast_succ]
    omega

theorem live_cells_mem (vp : scm_vm) (a : Int) :
    a ∈ live_cells vp ↔ vp.stack_base ≤ a ∧ a ≤ vp.sp := by
  simp only [live_cells, List.mem_map, List.mem_range]
  constructor
  · rintro ⟨i, hi, rfl⟩
    omega
  · rintro ⟨h1, h2⟩
    exact ⟨(a - vp.stack_base).toNat, by omega, by omega⟩

theorem live_cells_ascending (vp : scm_vm) : (live_cells vp).Pairwise (fun a b => a < b) := by
  rw [live_cells, List.pairwise_map]
  exact (List.pairwise_lt_range _).imp (fun h => by omega)

/-- C10: `vm_stack_mark` returns the mark stack as it received it when the word in cell 0 of
the block is null or `addr` is not `stack_base - 1` of the VM that word points to; otherwise
it applies `GC_MARK_AND_PUSH` to the contents of the cells `live_cells`, one call per cell in
list order, where `live_cells` is strictly ascending (so without repetition) and consists of
exactly the addresses from `stack_base` to `sp`; no cell above `sp` is traced, and nothing is
traced when `sp = stack_base - 1`. -/
theorem stack_mark_precise {M : Type} (GC_MARK_AND_PUSH : SCM → M → M) (vm_at : Int → scm_vm)
    (mem : Mem) (addr : Int) (m : M) :
    (mem addr = 0 ∨ addr ≠ (vm_at (mem addr)).stack_base - 1 →
      vm_stack_mark GC_MARK_AND_PUSH vm_at mem addr m = m) ∧
    (mem addr ≠ 0 → addr = (vm_at (mem addr)).stack_base - 1 →
      vm_stack_mark GC_MARK_AND_PUSH vm_at mem addr m
        = (live_cells (vm_at (mem addr))).foldl (fun m a => GC_MARK_AND_PUSH (mem a) m) m) ∧
    (∀ a, a ∈ live_cells (vm_at (mem addr))
      ↔ (vm_at (mem addr)).stack_base ≤ a ∧ a ≤ (vm_at (mem addr)).sp) ∧
    (live_cells (vm_at (mem addr))).Pairwise (fun a b => a < b) ∧
    ((vm_at (mem addr)).sp = (vm_at (mem addr)).stack_base - 1 →
      vm_stack_mark GC_MARK_AND_PUSH vm_at mem addr m = m) := by
  refine ⟨fun h => ?_, fun h1 h2 => ?_, live_cells_mem _, live_cells_ascending _, fun h => ?_⟩
  · rw [vm_stack_mark, if_pos h]
  · rw [vm_stack_mark, if_neg (by rintro (h | h); exact h1 h; exact h h2), mark_words_eq_foldl]
    rfl
  · rw [vm_stack_mark]
    split
    · rfl
    · rw [h]
      simp [mark_words]

/-- C10, at the block of `vm_small` (base `10`, `sp = 12`) in `mem_block`, with a mark stack
that records the traced words, most recent first: the words of cells `10`, `11`, `12` are
traced in that order. -/
theorem stack_mark_precise_witness :
    vm_stack_mark (fun (w : SCM) (m : List SCM) => w :: m) (fun _ => vm_small) mem_block 9 []
      = [24, 22, 20] :=
  ((stack_mark_precise (fun (w : SCM) (m : List SCM) => w :: m) (fun _ => vm_small) mem_block 9
      []).2.1 (by decide) (by decide)).trans (by decide)

/-! ## Builtin lookup -/

theorem builtin_names_distinct :
    scm_sym_apply ≠ scm_sym_values ∧ scm_sym_apply ≠ scm_sym_abort_to_prompt ∧
    scm_sym_apply ≠ scm_sym_call_with_values ∧
    scm_sym_apply ≠ scm_sym_call_with_current_continuation ∧
    scm_sym_values ≠ scm_sym_abort_to_prompt ∧ scm_sym_values ≠ scm_sym_call_with_values ∧
    scm_sym_values ≠ scm_sym_call_with_current_continuation ∧
    scm_sym_abort_to_prompt ≠ scm_sym_call_with_values ∧
    scm_sym_abort_to_prompt ≠ scm_sym_call_with_current_continuation ∧
    scm_sym_call_with_values ≠ scm_sym_call_with_current_continuation := by
  decide

theorem builtin_name_lookup (E : builtin_enum) :
    scm_vm_builtin_name_to_index E (scm_val.symbol scm_sym_apply)
      = Except.ok (scm_val.integer E.APPLY) ∧
    scm_vm_builtin_name_to_index E (scm_val.symbol scm_sym_values)
      = Except.ok (scm_val.integer E.VALUES) ∧
    scm_vm_builtin_name_to_index E (scm_val.symbol scm_sym_abort_to_prompt)
      = Except.ok (scm_val.integer E.ABORT_TO_PROMPT) ∧
    scm_vm_builtin_name_to_index E (scm_val.symbol scm_sym_call_with_values)
      = Except.ok (scm_val.integer E.CALL_WITH_VALUES) ∧
    scm_vm_builtin_name_to_index E (scm_val.symbol scm_sym_call_with_current_continuation)
      = Except.ok (scm_val.integer E.CALL_WITH_CURRENT_CONTINUATION) := by
  obtain ⟨h1, h2, h3, h4, h5, h6, h7, h8, h9, h10⟩ := builtin_names_distinct
  refine ⟨?_, ?_, ?_, ?_, ?_⟩
  · simp only [scm_vm_builtin_name_to_index, if_true]
  · simp only [scm_vm_builtin_name_to_index, if_neg h1.symm, if_true]
  · simp only [scm_vm_builtin_name_to_index, if_neg h2.symm, if_neg h5.symm, if_true]
  · simp only [scm_vm_builtin_name_to_index, if_neg h3.symm, if_neg h6.symm, if_neg h8.symm,
      if_true]
  · simp only [scm_vm_builtin_name_to_index, if_neg h4.symm, if_neg h7.symm, if_neg h9.symm,
      if_neg h10.symm, if_true]

theorem builtin_index_lookup (E : builtin_enum) (hdistinct : (builtin_indices E).Nodup)
    (hrange : ∀ i ∈ builtin_indices E, (i : Int) < UINT_RANGE) :
    scm_vm_builtin_index_to_name E (scm_val.integer E.APPLY)
      = Except.ok (scm_val.symbol scm_sym_apply) ∧
    scm_vm_builtin_index_to_name E (scm_val.integer E.VALUES)
      = Except.ok (scm_val.symbol scm_sym_values) ∧
    scm_vm_builtin_index_to_name E (scm_val.integer E.ABORT_TO_PROMPT)
      = Except.ok (scm_val.symbol scm_sym_abort_to_prompt) ∧
    scm_vm_builtin_index_to_name E (scm_val.integer E.CALL_WITH_VALUES)
      = Except.ok (scm_val.symbol scm_sym_call_with_values) ∧
    scm_vm_builtin_index_to_name E (scm_val.integer E.CALL_WITH_CURRENT_CONTINUATION)
      = Except.ok (scm_val.symbol scm_sym_call_with_current_continuation) := by
  obtain ⟨a, b, c, d, e⟩ := E
  simp only [builtin_indices, List.nodup_cons, List.mem_cons, List.mem_singleton,
    List.not_mem_nil, not_or, List.nodup_nil, and_true, or_false] at hdistinct
  obtain ⟨⟨hab, hac, had, hae⟩, ⟨hbc, hbd, hbe⟩, ⟨hcd, hce⟩, hde, _⟩ := hdistinct
  have ha := hrange a (by simp [builtin_indices])
  have hb := hrange b (by simp [builtin_indices])
  have hc := hrange c (by simp [builtin_indices])
  have hd := hrange d (by simp [builtin_indices])
  have he := hrange e (by simp [builtin_indices])
  have key : ∀ k : Nat, (k : Int) < UINT_RANGE →
      (0 ≤ (k : Int) ∧ (k : Int) < UINT_RANGE) := fun k hk => ⟨by omega, hk⟩
  refine ⟨?_, ?_, ?_, ?_, ?_⟩
  · simp only [scm_vm_builtin_index_to_name, if_pos (key a ha), Int.toNat_ofNat, if_true]
  · simp only [scm_vm_builtin_index_to_name, if_pos (key b hb), Int.toNat_ofNat,
      if_neg (Ne.symm hab), if_true]
  · simp only [scm_vm_builtin_index_to_name, if_pos (key c hc), Int.toNat_ofNat,
      if_neg (Ne.symm hac), if_neg (Ne.symm hbc), if_true]
  · simp only [scm_vm_builtin_index_to_name, if_pos (key d hd), Int.toNat_ofNat,
      if_neg (Ne.symm had), if_neg (Ne.symm hbd), if_neg (Ne.symm hcd), if_true]
  · simp only [scm_vm_builtin_index_to_name, if_pos (key e he), Int.toNat_ofNat,
      if_neg (Ne.symm hae), if_neg (Ne.symm hbe), if_neg (Ne.symm hce), if_neg (Ne.symm hde),
      if_true]

theorem except_ok_bind {ε α β : Type} (a : α) (f : α → Except ε β) :
    (Except.ok a >>= f) = f a := rfl

/-- C11: builtin name/index round trip.  Whatever distinct `unsigned` values the enumerators
`SCM_VM_BUILTIN_...` have, `builtin-name->index (builtin-index->name (i)) = i` for every index
`i` of the table, `builtin-index->name (builtin-name->index (s)) = s` for every name `s` of
the table, and both mappings are injective on the table. -/
theorem builtin_round_trip (E : builtin_enum) (hdistinct : (builtin_indices E).Nodup)
    (hrange : ∀ i ∈ builtin_indices E, (i : Int) < UINT_RANGE) :
    (∀ i ∈ builtin_indices E,
      (scm_vm_builtin_index_to_name E (scm_val.integer i) >>= scm_vm_builtin_name_to_index E)
        = Except.ok (scm_val.integer i)) ∧
    (∀ s ∈ builtin_names,
      (scm_vm_builtin_name_to_index E (scm_val.symbol s) >>= scm_vm_builtin_index_to_name E)
        = Except.ok (scm_val.symbol s)) ∧
    (∀ i ∈ builtin_indices E, ∀ j ∈ builtin_indices E,
      scm_vm_builtin_index_to_name E (scm_val.integer i)
        = scm_vm_builtin_index_to_name E (scm_val.integer j) → i = j) ∧
    (∀ s ∈ builtin_names, ∀ t ∈ builtin_names,
      scm_vm_builtin_name_to_index E (scm_val.symbol s)
        = scm_vm_builtin_name_to_index E (scm_val.symbol t) → s = t) := by
  obtain ⟨n1, n2, n3, n4, n5⟩ := builtin_name_lookup E
  obtain ⟨i1, i2, i3, i4, i5⟩ := builtin_index_lookup E hdistinct hrange
  have hback : ∀ i ∈ builtin_indices E,
      (scm_vm_builtin_index_to_name E (scm_val.integer i) >>= scm_vm_builtin_name_to_index E)
        = Except.ok (scm_val.integer i) := by
    intro i hi
    simp only [builtin_indices, List.mem_cons, List.mem_singleton, List.not_mem_nil,
      or_false] at hi
    rcases hi with rfl | rfl | rfl | rfl | rfl
    · rw [i1, except_ok_bind]; exact n1
    · rw [i2, except_ok_bind]; exact n2
    · rw [i3, except_ok_bind]; exact n3
    · rw [i4, except_ok_bind]; exact n4
    · rw [i5, except_ok_bind]; exact n5
  have hforth : ∀ s ∈ builtin_names,
      (scm_vm_builtin_name_to_index E (scm_val.symbol s) >>= scm_vm_builtin_index_to_name E)
        = Except.ok (scm_val.symbol s) := by
    intro s hs
    simp only [builtin_names, List.mem_cons, List.mem_singleton, List.not_mem_nil,
      or_false] at hs
    rcases hs with rfl | rfl | rfl | rfl | rfl
    · rw [n1, except_ok_bind]; exact i1
    · rw [n2, except_ok_bind]; exact i2
    · rw [n3, except_ok_bind]; exact i3
    · rw [n4, except_ok_bind]; exact i4
    · rw [n5, except_ok_bind]; exact i5
  refine ⟨hback, hforth, ?_, ?_⟩
  · intro i hi j hj h
    have h1 := hback i hi
    rw [h, hback j hj] at h1
    exact (Int.ofNat_inj.mp (scm_val.integer.inj (Except.ok.inj h1))).symm
  · intro s hs t ht h
    have h1 := hforth s hs
    rw [h, hforth t ht] at h1
    exact (scm_val.symbol.inj (Except.ok.inj h1)).symm

/-- C11, at the enumerators `0 .. 4`: index `2` names `abort-to-prompt`, and the name leads
back to `2`. -/
theorem builtin_round_trip_witness :
    (scm_vm_builtin_index_to_name enum_standard (scm_val.integer (2 : Nat))
        >>= scm_vm_builtin_name_to_index enum_standard)
      = Except.ok (scm_val.integer (2 : Nat)) ∧
    (scm_vm_builtin_name_to_index enum_standard (scm_val.symbol "abort-to-prompt")
        >>= scm_vm_builtin_index_to_name enum_standard)
      = Except.ok (scm_val.symbol "abort-to-prompt") :=
  ⟨(builtin_round_trip enum_standard (by decide) (by decide)).1 2 (by decide),
    (builtin_round_trip enum_standard (by decide) (by decide)).2.1 "abort-to-prompt"
      (by decide)⟩

/-! ## Hook dispatch -/

theorem cons_args_eq (mem : Mem) (argv : Int) (n : Nat) :
    ∀ acc : List SCM, cons_args mem argv n acc = read_array mem argv n ++ acc := by
  induction n with
  | zero => intro acc; simp [cons_args, read_array]
  | succ k ih =>
    intro acc
    rw [cons_args, ih]
    simp [read_array, List.range_succ]

theorem run_procedures_nil (H : hook_ops) (frame : scm_frame) (args : List SCM)
    (s : VMState) :
    run_procedures H frame args [] s = { outcome := Outcome.returned s, calls := [] } := by
  rw [run_procedures]

theorem run_procedures_returned (H : hook_ops) (frame : scm_frame) (args : List SCM)
    (p : SCM) (ps : List SCM) (s s1 : VMState)
    (hc : H.call_procedure p frame args s = Outcome.returned s1) :
    run_procedures H frame args (p :: ps) s
      = { outcome := (run_procedures H frame args ps s1).outcome,
          calls := { proc := p, frame := frame, args := args, state := s } ::
            (run_procedures H frame args ps s1).calls } := by
  rw [run_procedures, hc]

theorem run_procedures_raised (H : hook_ops) (frame : scm_frame) (args : List SCM)
    (p : SCM) (ps : List SCM) (s s1 : VMState) (e : Error)
    (hc : H.call_procedure p frame args s = Outcome.raised e s1) :
    run_procedures H frame args (p :: ps) s
      = { outcome := Outcome.raised e s1,
          calls := [{ proc := p, frame := frame, args := args, state := s }] } := by
  rw [run_procedures, hc]

theorem run_procedures_aborted (H : hook_ops) (frame : scm_frame) (args : List SCM)
    (p : SCM) (ps : List SCM) (s : VMState)
    (hc : H.call_procedure p frame args s = Outcome.aborted) :
    run_procedures H frame args (p :: ps) s
      = { outcome := Outcome.aborted,
          calls := [{ proc := p, frame := frame, args := args, state := s }] } := by
  rw [run_procedures, hc]

/-- The applications made by `run_procedures` and the way it ends: every application passes
`frame` and `args`; the procedures applied are an initial part of the list; the first is
applied in the starting state and each further one in the state its predecessor returned;
the run ends as its last application does, and has then applied the whole list if that
application returned. -/
theorem run_procedures_spec (H : hook_ops) (frame : scm_frame) (args : List SCM)
    (ps : List SCM) :
    ∀ s : VMState,
      (∀ c ∈ (run_procedures H frame args ps s).calls, c.frame = frame ∧ c.args = args) ∧
      ((run_procedures H frame args ps s).calls.map hook_call.proc <+: ps) ∧
      ((run_procedures H frame args ps s).calls.head?
        = ps.head?.map
            (fun p => ({ proc := p, frame := frame, args := args, state := s } : hook_call))) ∧
      (run_procedures H frame args ps s).calls.Chain'
        (fun c c' => c.result H = Outcome.returned c'.state) ∧
      (ps = [] → (run_procedures H frame args ps s).outcome = Outcome.returned s) ∧
      (∀ c, (run_procedures H frame args ps s).calls.getLast? = some c →
        (∀ s2, c.result H = Outcome.returned s2 →
          (run_procedures H frame args ps s).outcome = Outcome.returned s2 ∧
          (run_procedures H frame args ps s).calls.map hook_call.proc = ps) ∧
        (∀ e s2, c.result H = Outcome.raised e s2 →
          (run_procedures H frame args ps s).outcome = Outcome.raised e s2) ∧
        (c.result H = Outcome.aborted →
          (run_procedures H frame args ps s).outcome = Outcome.aborted)) := by
  induction ps with
  | nil =>
    intro s
    rw [run_procedures_nil]
    refine ⟨?_, ?_, rfl, List.chain'_nil, fun _ => rfl, ?_⟩
    · intro c hc
      simp at hc
    · simp
    · intro c hc
      simp at hc
  | cons p ps ih =>
    intro s
    cases hc : H.call_procedure p frame args s with
    | returned s1 =>
      rw [run_procedures_returned H frame args p ps s s1 hc]
      obtain ⟨h1, h2, h3, h4, h5, h6⟩ := ih s1
      have hres : hook_call.result H
          { proc := p, frame := frame, args := args, state := s } = Outcome.returned s1 := hc
      refine ⟨?_, ?_, rfl, ?_, ?_, ?_⟩
      · intro c hcm
        rcases List.mem_cons.mp hcm with h | h
        · rw [h]; exact ⟨rfl, rfl⟩
        · exact h1 c h
      · simpa using h2
      · rw [List.chain'_cons']
        refine ⟨?_, h4⟩
        intro y hy
        rw [h3] at hy
        cases ps with
        | nil => simp at hy
        | cons q qs =>
          simp only [List.head?_cons, Option.map_some', Option.mem_def,
            Option.some.injEq] at hy
          rw [← hy]
          exact hres
      · intro h
        cases h
      · intro c hlast
        cases hrest : (run_procedures H frame args ps s1).calls with
        | nil =>
          rw [hrest] at hlast h3
          simp only [List.getLast?_singleton, Option.some.injEq] at hlast
          have hps : ps = [] := by
            cases ps with
            | nil => rfl
            | cons q qs => simp at h3
          subst hlast
          refine ⟨?_, ?_, ?_⟩
          · intro s2 hs2
            rw [hres] at hs2
            rw [← Outcome.returned.inj hs2, h5 hps, hps]
            exact ⟨rfl, rfl⟩
          · intro e s2 hs2
            rw [hres] at hs2
            cases hs2
          · intro hs2
            rw [hres] at hs2
            cases hs2
        | cons r rs =>
          rw [hrest, List.getLast?_cons_cons, ← hrest] at hlast
          obtain ⟨k1, k2, k3⟩ := h6 c hlast
          refine ⟨?_, k2, k3⟩
          intro s2 hs2
          obtain ⟨k4, k5⟩ := k1 s2 hs2
          refine ⟨k4, ?_⟩
          rw [← hrest, List.map_cons, k5]
    | raised e1 s1 =>
      rw [run_procedures_raised H frame args p ps s s1 e1 hc]
      have hres : hook_call.result H
          { proc := p, frame := frame, args := args, state := s } = Outcome.raised e1 s1 := hc
      refine ⟨?_, ?_, rfl, List.chain'_singleton _, ?_, ?_⟩
      · intro c hcm
        rw [List.mem_singleton.mp hcm]; exact ⟨rfl, rfl⟩
      · simp
      · intro h
        cases h
      · intro c hlast
        simp only [List.getLast?_singleton, Option.some.injEq] at hlast
        subst hlast
        refine ⟨?_, ?_, ?_⟩
        · intro s2 hs2
          rw [hres] at hs2
          cases hs2
        · intro e s2 hs2
          rw [hres] at hs2
          rw [← hs2]
        · intro hs2
          rw [hres] at hs2
          cases hs2
    | aborted =>
      rw [run_procedures_aborted H frame args p ps s hc]
      have hres : hook_call.result H
          { proc := p, frame := frame, args := args, state := s } = Outcome.aborted := hc
      refine ⟨?_, ?_, rfl, List.chain'_singleton _, ?_, ?_⟩
      · intro c hcm
        rw [List.mem_singleton.mp hcm]; exact ⟨rfl, rfl⟩
      · simp
      · intro h
        cases h
      · intro c hlast
        simp only [List.getLast?_singleton, Option.some.injEq] at hlast
        subst hlast
        refine ⟨?_, ?_, ?_⟩
        · intro s2 hs2
          rw [hres] at hs2
          cases hs2
        · intro e s2 hs2
          rw [hres] at hs2
          cases hs2
        · intro _
          rfl

/-- With hook procedures that hand back the `struct scm_vm` as they found it, so does
`run_procedures`. -/
theorem run_procedures_vp (H : hook_ops) (hk : hooks_keep_vm H) (frame : scm_frame)
    (args : List SCM) (ps : List SCM) :
    ∀ s : VMState,
      (∀ s1, (run_procedures H frame args ps s).outcome = Outcome.returned s1 →
        s1.vp = s.vp) ∧
      (∀ e s1, (run_procedures H frame args ps s).outcome = Outcome.raised e s1 →
        s1.vp = s.vp) := by
  induction ps with
  | nil =>
    intro s
    rw [run_procedures_nil]
    constructor
    · intro s1 h
      rw [← Outcome.returned.inj h]
    · intro e s1 h
      cases h
  | cons p ps ih =>
    intro s
    have hp := hk p frame args s
    cases hc : H.call_procedure p frame args s with
    | returned s2 =>
      rw [run_procedures_returned H frame args p ps s s2 hc]
      rw [hc] at hp
      simp only [] at hp
      constructor
      · intro s1 h
        rw [(ih s2).1 s1 h, hp]
      · intro e s1 h
        rw [(ih s2).2 e s1 h, hp]
    | raised e2 s2 =>
      rw [run_procedures_raised H frame args p ps s s2 e2 hc]
      rw [hc] at hp
      simp only [] at hp
      constructor
      · intro s1 h
        cases h
      · intro e s1 h
        rw [← (Outcome.raised.inj h).2, hp]
    | aborted =>
      rw [run_procedures_aborted H frame args p ps s hc]
      constructor
      · intro s1 h
        cases h
      · intro e s1 h
        cases h

/-- With hook procedures that do not write the VM, every procedure is entered in the starting
state, and `run_procedures` hands that state back. -/
theorem run_procedures_state (H : hook_ops) (hk : hooks_keep_state H) (frame : scm_frame)
    (args : List SCM) (ps : List SCM) :
    ∀ s : VMState,
      (∀ c ∈ (run_procedures H frame args ps s).calls, c.state = s) ∧
      (∀ s1, (run_procedures H frame args ps s).outcome = Outcome.returned s1 → s1 = s) ∧
      (∀ e s1, (run_procedures H frame args ps s).outcome = Outcome.raised e s1 →
        s1 = s) := by
  induction ps with
  | nil =>
    intro s
    rw [run_procedures_nil]
    refine ⟨?_, ?_, ?_⟩
    · intro c hc
      simp at hc
    · intro s1 h
      rw [← Outcome.returned.inj h]
    · intro e s1 h
      cases h
  | cons p ps ih =>
    intro s
    have hp := hk p frame args s
    cases hc : H.call_procedure p frame args s with
    | returned s2 =>
      rw [run_procedures_returned H frame args p ps s s2 hc]
      rw [hc] at hp
      simp only [] at hp
      subst hp
      obtain ⟨h1, h2, h3⟩ := ih s2
      refine ⟨?_, h2, h3⟩
      intro c hcm
      rcases List.mem_cons.mp hcm with h | h
      · rw [h]
      · exact h1 c h
    | raised e2 s2 =>
      rw [run_procedures_raised H frame args p ps s s2 e2 hc]
      rw [hc] at hp
      simp only [] at hp
      subst hp
      refine ⟨?_, ?_, ?_⟩
      · intro c hcm
        rw [List.mem_singleton.mp hcm]
      · intro s1 h
        cases h
      · intro e s1 h
        rw [← (Outcome.raised.inj h).2]
    | aborted =>
      rw [run_procedures_aborted H frame args p ps s hc]
      refine ⟨?_, ?_, ?_⟩
      · intro c hcm
        rw [List.mem_singleton.mp hcm]
      · intro s1 h
        cases h
      · intro e s1 h
        cases h

/-- What `vm_dispatch_hook` does on an enabled hook: it makes the applications of
`run_procedures` for the frame object of the VM, the `n` words at `argv` and the procedure
list of the hook, started in the state with `trace_level` zeroed, and ends as that run does,
restoring `trace_level` if it returns. -/
theorem dispatch_hook_enabled (H : hook_ops) (s : VMState) (vm : SCM) (hook_num : Nat)
    (argv : Int) (n : Nat)
    (hen : ¬ (s.vp.hooks.getD hook_num SCM_BOOL_F = SCM_BOOL_F ∨
      H.SCM_HOOK_PROCEDURES (s.vp.hooks.getD hook_num SCM_BOOL_F) = [])) :
    (vm_dispatch_hook H s vm hook_num argv n).calls
      = (run_procedures H
          { stack_holder := vm, fp := s.vp.fp, sp := s.vp.sp, ip := s.vp.ip, offset := 0 }
          (read_array s.mem argv n)
          (H.SCM_HOOK_PROCEDURES (s.vp.hooks.getD hook_num SCM_BOOL_F))
          { s with vp := { s.vp with trace_level := 0 } }).calls ∧
    (vm_dispatch_hook H s vm hook_num argv n).outcome
      = (match (run_procedures H
          { stack_holder := vm, fp := s.vp.fp, sp := s.vp.sp, ip := s.vp.ip, offset := 0 }
          (read_array s.mem argv n)
          (H.SCM_HOOK_PROCEDURES (s.vp.hooks.getD hook_num SCM_BOOL_F))
          { s with vp := { s.vp with trace_level := 0 } }).outcome with
        | Outcome.returned s2 =>
          Outcome.returned { s2 with vp := { s2.vp with trace_level := s.vp.trace_level } }
        | Outcome.raised e s2 => Outcome.raised e s2
        | Outcome.aborted => Outcome.aborted) := by
  have hargs : (if n = 0 then ([] : List SCM) else if n = 1 then [s.mem argv]
      else cons_args s.mem argv n []) = read_array s.mem argv n := by
    by_cases h0 : n = 0
    · subst h0; simp [read_array]
    · by_cases h1 : n = 1
      · subst h1; simp [read_array, List.range_succ]
      · rw [if_neg h0, if_neg h1, cons_args_eq, List.append_nil]
  have hrun : (if n = 0 then
        scm_c_run_hookn H (s.vp.hooks.getD hook_num SCM_BOOL_F)
          { stack_holder := vm, fp := s.vp.fp, sp := s.vp.sp, ip := s.vp.ip, offset := 0 }
          [] { s with vp := { s.vp with trace_level := 0 } }
      else if n = 1 then
        scm_c_run_hookn H (s.vp.hooks.getD hook_num SCM_BOOL_F)
          { stack_holder := vm, fp := s.vp.fp, sp := s.vp.sp, ip := s.vp.ip, offset := 0 }
          [s.mem argv] { s with vp := { s.vp with trace_level := 0 } }
      else
        scm_c_run_hook H (s.vp.hooks.getD hook_num SCM_BOOL_F)
          { stack_holder := vm, fp := s.vp.fp, sp := s.vp.sp, ip := s.vp.ip, offset := 0 }
          (cons_args s.mem argv n []) { s with vp := { s.vp with trace_level := 0 } })
      = run_procedures H
          { stack_holder := vm, fp := s.vp.fp, sp := s.vp.sp, ip := s.vp.ip, offset := 0 }
          (read_array s.mem argv n)
          (H.SCM_HOOK_PROCEDURES (s.vp.hooks.getD hook_num SCM_BOOL_F))
          { s with vp := { s.vp with trace_level := 0 } } := by
    rw [← hargs]
    simp only [scm_c_run_hookn, scm_c_run_hook]
    split_ifs <;> rfl
  rw [vm_dispatch_hook, if_neg hen]
  simp only []
  rw [hrun]
  constructor
  · split <;> rfl
  · split <;> rename_i h <;> rw [h]

theorem dispatch_hook_disabled (H : hook_ops) (s : VMState) (vm : SCM) (hook_num : Nat)
    (argv : Int) (n : Nat)
    (hen : s.vp.hooks.getD hook_num SCM_BOOL_F = SCM_BOOL_F ∨
      H.SCM_HOOK_PROCEDURES (s.vp.hooks.getD hook_num SCM_BOOL_F) = []) :
    vm_dispatch_hook H s vm hook_num argv n
      = { outcome := Outcome.returned s, calls := [] } := by
  rw [vm_dispatch_hook, if_pos hen]

/-- With hook procedures that hand back the `struct scm_vm` as they found it,
`vm_dispatch_hook` hands it back when it returns, and with `trace_level` zeroed when it
leaves by a throw. -/
theorem dispatch_hook_vp (H : hook_ops) (hk : hooks_keep_vm H) (s : VMState) (vm : SCM)
    (hook_num : Nat) (argv : Int) (n : Nat) :
    (∀ s1, (vm_dispatch_hook H s vm hook_num argv n).outcome = Outcome.returned s1 →
      s1.vp = s.vp) ∧
    (∀ e s1, (vm_dispatch_hook H s vm hook_num argv n).outcome = Outcome.raised e s1 →
      s1.vp = s.vp ∨ s1.vp = { s.vp with trace_level := 0 }) := by
  by_cases hen : s.vp.hooks.getD hook_num SCM_BOOL_F = SCM_BOOL_F ∨
      H.SCM_HOOK_PROCEDURES (s.vp.hooks.getD hook_num SCM_BOOL_F) = []
  · rw [dispatch_hook_disabled H s vm hook_num argv n hen]
    constructor
    · intro s1 h
      rw [← Outcome.returned.inj h]
    · intro e s1 h
      cases h
  · obtain ⟨_, hout⟩ := dispatch_hook_enabled H s vm hook_num argv n hen
    obtain ⟨hret, hraise⟩ := run_procedures_vp H hk
      { stack_holder := vm, fp := s.vp.fp, sp := s.vp.sp, ip := s.vp.ip, offset := 0 }
      (read_array s.mem argv n)
      (H.SCM_HOOK_PROCEDURES (s.vp.hooks.getD hook_num SCM_BOOL_F))
      { s with vp := { s.vp with trace_level := 0 } }
    rw [hout]
    constructor
    · intro s1 h
      split at h
      · rename_i s2 hs2
        rw [← Outcome.returned.inj h]
        simp only [hret s2 hs2]
      · cases h
      · cases h
    · intro e s1 h
      split at h
      · cases h
      · rename_i e2 s2 hs2
        rw [← (Outcome.raised.inj h).2]
        exact Or.inr (hraise e2 s2 hs2)
      · cases h

/-- C16: argument marshalling of hook dispatch.  Every application of a hook procedure made
by `vm_dispatch_hook` passes the frame object that records the VM and its `fp`, `sp`, `ip` at
the time of the dispatch, with offset `0`, followed by the `n` further arguments
`argv[0], ..., argv[n - 1]` in that order (whichever of the three branches `n = 0`, `n = 1`,
`n ≥ 2` is taken).  The procedures applied are an initial part of the procedure list of the
hook, in list order.  On an enabled hook at least one application is made, of the first
procedure of the list; each further application is made in the state its predecessor
returned; when the last application returns, the whole list has been applied and the
dispatch returns; when it throws or aborts, so does the dispatch. -/
theorem hook_argument_marshalling (H : hook_ops) (s : VMState) (vm : SCM) (hook_num : Nat)
    (argv : Int) (n : Nat) :
    (∀ c ∈ (vm_dispatch_hook H s vm hook_num argv n).calls,
      c.frame
        = { stack_holder := vm, fp := s.vp.fp, sp := s.vp.sp, ip := s.vp.ip, offset := 0 } ∧
      c.args = read_array s.mem argv n ∧ c.args.length = n) ∧
    ((vm_dispatch_hook H s vm hook_num argv n).calls.map hook_call.proc
      <+: H.SCM_HOOK_PROCEDURES (s.vp.hooks.getD hook_num SCM_BOOL_F)) ∧
    (¬ (s.vp.hooks.getD hook_num SCM_BOOL_F = SCM_BOOL_F ∨
        H.SCM_HOOK_PROCEDURES (s.vp.hooks.getD hook_num SCM_BOOL_F) = []) →
      ∃ c cs, (vm_dispatch_hook H s vm hook_num argv n).calls = c :: cs ∧
        (H.SCM_HOOK_PROCEDURES (s.vp.hooks.getD hook_num SCM_BOOL_F)).head?
          = some c.proc) ∧
    (vm_dispatch_hook H s vm hook_num argv n).calls.Chain'
      (fun c c' => c.result H = Outcome.returned c'.state) ∧
    (∀ c, (vm_dispatch_hook H s vm hook_num argv n).calls.getLast? = some c →
      (∀ s2, c.result H = Outcome.returned s2 →
        (vm_dispatch_hook H s vm hook_num argv n).calls.map hook_call.proc
          = H.SCM_HOOK_PROCEDURES (s.vp.hooks.getD hook_num SCM_BOOL_F) ∧
        ∃ s1, (vm_dispatch_hook H s vm hook_num argv n).outcome = Outcome.returned s1) ∧
      (∀ e s2, c.result H = Outcome.raised e s2 →
        (vm_dispatch_hook H s vm hook_num argv n).outcome = Outcome.raised e s2) ∧
      (c.result H = Outcome.aborted →
        (vm_dispatch_hook H s vm hook_num argv n).outcome = Outcome.aborted)) ∧
    (s.vp.hooks.getD hook_num SCM_BOOL_F ≠ SCM_BOOL_F →
      ∀ s1, (vm_dispatch_hook H s vm hook_num argv n).outcome = Outcome.returned s1 →
        (vm_dispatch_hook H s vm hook_num argv n).calls.map hook_call.proc
          = H.SCM_HOOK_PROCEDURES (s.vp.hooks.getD hook_num SCM_BOOL_F)) := by
  by_cases hen : s.vp.hooks.getD hook_num SCM_BOOL_F = SCM_BOOL_F ∨
      H.SCM_HOOK_PROCEDURES (s.vp.hooks.getD hook_num SCM_BOOL_F) = []
  · rw [dispatch_hook_disabled H s vm hook_num argv n hen]
    refine ⟨?_, ?_, fun h => absurd hen h, List.chain'_nil, ?_, ?_⟩
    · intro c hc
      simp at hc
    · simp
    · intro c hc
      simp at hc
    · intro hne s1 _
      rcases hen with h | h
      · exact absurd h hne
      · rw [h]
        rfl
  · obtain ⟨hcalls, hout⟩ := dispatch_hook_enabled H s vm hook_num argv n hen
    obtain ⟨h1, h2, h3, h4, _, h6⟩ := run_procedures_spec H
      { stack_holder := vm, fp := s.vp.fp, sp := s.vp.sp, ip := s.vp.ip, offset := 0 }
      (read_array s.mem argv n)
      (H.SCM_HOOK_PROCEDURES (s.vp.hooks.getD hook_num SCM_BOOL_F))
      { s with vp := { s.vp with trace_level := 0 } }
    have hlast : ∀ c, (vm_dispatch_hook H s vm hook_num argv n).calls.getLast? = some c →
        (∀ s2, c.result H = Outcome.returned s2 →
          (vm_dispatch_hook H s vm hook_num argv n).calls.map hook_call.proc
            = H.SCM_HOOK_PROCEDURES (s.vp.hooks.getD hook_num SCM_BOOL_F) ∧
          ∃ s1, (vm_dispatch_hook H s vm hook_num argv n).outcome = Outcome.returned s1) ∧
        (∀ e s2, c.result H = Outcome.raised e s2 →
          (vm_dispatch_hook H s vm hook_num argv n).outcome = Outcome.raised e s2) ∧
        (c.result H = Outcome.aborted →
          (vm_dispatch_hook H s vm hook_num argv n).outcome = Outcome.aborted) := by
      intro c hl
      rw [hcalls] at hl
      obtain ⟨k1, k2, k3⟩ := h6 c hl
      rw [hout, hcalls]
      refine ⟨?_, ?_, ?_⟩
      · intro s2 hs2
        refine ⟨(k1 s2 hs2).2, ?_⟩
        rw [(k1 s2 hs2).1]
        exact ⟨_, rfl⟩
      · intro e s2 hs2
        rw [k2 e s2 hs2]
      · intro hs2
        rw [k3 hs2]
    refine ⟨?_, ?_, fun _ => ?_, ?_, hlast, ?_⟩
    · intro c hc
      rw [hcalls] at hc
      obtain ⟨hf, ha⟩ := h1 c hc
      exact ⟨hf, ha, by rw [ha, read_array_length]⟩
    · rw [hcalls]
      exact h2
    · rw [hcalls]
      cases hps : H.SCM_HOOK_PROCEDURES (s.vp.hooks.getD hook_num SCM_BOOL_F) with
      | nil => exact absurd (Or.inr hps) hen
      | cons p ps =>
        rw [hps] at h3
        cases hl : (run_procedures H
            { stack_holder := vm, fp := s.vp.fp, sp := s.vp.sp, ip := s.vp.ip, offset := 0 }
            (read_array s.mem argv n) (p :: ps)
            { s with vp := { s.vp with trace_level := 0 } }).calls with
        | nil =>
          rw [hl] at h3
          simp at h3
        | cons c cs =>
          rw [hl] at h3
          simp only [List.head?_cons, Option.map_some', Option.some.injEq] at h3
          exact ⟨c, cs, rfl, by rw [h3]; rfl⟩
    · rw [hcalls]
      exact h4
    · intro _ s1 h
      cases hl : (vm_dispatch_hook H s vm hook_num argv n).calls.getLast? with
      | none =>
        rw [List.getLast?_eq_none_iff] at hl
        rw [hcalls] at hl
        rw [hl] at h3
        cases hps : H.SCM_HOOK_PROCEDURES (s.vp.hooks.getD hook_num SCM_BOOL_F) with
        | nil => exact absurd (Or.inr hps) hen
        | cons p ps =>
          rw [hps] at h3
          simp at h3
      | some c =>
        obtain ⟨k1, k2, k3⟩ := hlast c hl
        cases hres : c.result H with
        | returned s2 => exact (k1 s2 hres).1
        | raised e s2 =>
          rw [k2 e s2 hres] at h
          cases h
        | aborted =>
          rw [k3 hres] at h
          cases h

/-- C16, at `state_traced` with the two extra arguments at `200`: the procedures `77` and `78`
are applied in that order, each to the frame object of the VM `5` with cursors `11`, `12`,
`70` and offset `0`, and to the words of cells `200` and `201`. -/
theorem hook_argument_marshalling_witness :
    (vm_dispatch_hook hooks_two state_traced 5 1 200 2).calls.map hook_call.proc
      = [77, 78] ∧
    ∀ c ∈ (vm_dispatch_hook hooks_two state_traced 5 1 200 2).calls,
      c.frame = { stack_holder := 5, fp := 11, sp := 12, ip := 70, offset := 0 } ∧
      c.args = [400, 402] :=
  ⟨(hook_argument_marshalling hooks_two state_traced 5 1 200 2).2.2.2.2.2 (by decide)
      state_traced rfl,
    fun c hc =>
      ⟨((hook_argument_marshalling hooks_two state_traced 5 1 200 2).1 c hc).1,
        ((hook_argument_marshalling hooks_two state_traced 5 1 200 2).1 c hc).2.1.trans
          (by decide)⟩⟩

/-! ## Overflow after overflow -/

theorem error_stack_overflow_raised (vp vp1 : scm_vm) (e : Error)
    (h : vm_error_stack_overflow vp = Outcome.raised e vp1) :
    vp1 = { vp with stack_limit := vp.stack_base + vp.stack_size } := by
  rw [vm_error_stack_overflow] at h
  split at h
  · rw [vm_error] at h
    exact (Outcome.raised.inj h).2.symm
  · cases h

theorem error_stack_overflow_not_returned (vp vp1 : scm_vm) :
    vm_error_stack_overflow vp ≠ Outcome.returned vp1 := by
  intro h
  rw [vm_error_stack_overflow] at h
  split at h
  · rw [vm_error] at h
    cases h
  · cases h

theorem engine_push_returned (s s1 : VMState) (v : SCM)
    (h : engine_push s v = Outcome.returned s1) : s1 = push s v := by
  rw [engine_push] at h
  split at h
  · exact (Outcome.returned.inj h).symm
  · split at h
    · rename_i vp1 hvp
      exact absurd hvp (error_stack_overflow_not_returned _ _)
    · cases h
    · cases h

theorem engine_push_raised (s s1 : VMState) (e : Error) (v : SCM)
    (h : engine_push s v = Outcome.raised e s1) :
    s1 = { s with vp := { s.vp with stack_limit := s.vp.stack_base + s.vp.stack_size } } := by
  rw [engine_push] at h
  split at h
  · cases h
  · split at h
    · cases h
    · rename_i e1 vp1 hvp
      rw [← (Outcome.raised.inj h).2, error_stack_overflow_raised _ _ _ hvp]
    · cases h

/-- The pushes that fit below `stack_limit` are performed one after the other. -/
theorem engine_push_all_fits (vs : List SCM) :
    ∀ s : VMState, s.vp.sp + (vs.length : Int) < s.vp.stack_limit →
      engine_push_all s vs = Outcome.returned (push_all s vs) := by
  induction vs with
  | nil =>
    intro s _
    rfl
  | cons v vs ih =>
    intro s h
    simp only [List.length_cons, Nat.cast_add, Nat.cast_one] at h
    have h1 : engine_push s v = Outcome.returned (push s v) := by
      rw [engine_push, if_pos (by omega)]
    rw [engine_push_all, h1]
    simp only []
    rw [ih (push s v) (by simp only [push]; omega)]
    rfl

theorem engine_push_all_append (vs ws : List SCM) :
    ∀ s : VMState,
      engine_push_all s (vs ++ ws)
        = match engine_push_all s vs with
          | Outcome.returned s1 => engine_push_all s1 ws
          | Outcome.raised e s1 => Outcome.raised e s1
          | Outcome.aborted => Outcome.aborted := by
  induction vs with
  | nil =>
    intro s
    rfl
  | cons v vs ih =>
    intro s
    simp only [List.cons_append, engine_push_all]
    cases engine_push s v with
    | returned s1 => exact ih s1
    | raised e s1 => rfl
    | aborted => rfl

/-- A program that pushes as many values as fit below `stack_limit` and then one more ends
as `vm_error_stack_overflow` does on the VM with those values pushed. -/
theorem engine_push_all_overflow (s : VMState) (vs : List SCM) (v : SCM)
    (h : s.vp.sp + (vs.length : Int) + 1 = s.vp.stack_limit) :
    engine_push_all s (vs ++ [v])
      = match vm_error_stack_overflow
            { s.vp with sp := s.vp.sp + (vs.length : Int) } with
        | Outcome.returned vp1 => Outcome.returned { push_all s vs with vp := vp1 }
        | Outcome.raised e vp1 => Outcome.raised e { push_all s vs with vp := vp1 }
        | Outcome.aborted => Outcome.aborted := by
  rw [engine_push_all_append, engine_push_all_fits vs s (by omega)]
  simp only [engine_push_all]
  have hfull : ¬ (push_all s vs).vp.sp + 1 < (push_all s vs).vp.stack_limit := by
    rw [push_all_vp]
    simp only []
    omega
  rw [engine_push, if_neg hfull, push_all_vp]
  split <;> rename_i h1 <;> rw [h1]

theorem later_step_static {D : Type} (L : frame_layout) (ops : dynstack_ops D) (H : hook_ops)
    (hk : hooks_keep_vm H) (s s1 : VMState) (h : later_step L ops H s s1) :
    s1.vp.stack_base = s.vp.stack_base ∧ s1.vp.stack_size = s.vp.stack_size ∧
    (s1.vp.stack_limit = s.vp.stack_limit ∨
      s1.vp.stack_limit = s.vp.stack_base + s.vp.stack_size) := by
  cases h with
  | capture copy dynstack => exact ⟨rfl, rfl, Or.inl rfl⟩
  | full _ cp n argv hr =>
    have h1 := (return_to_continuation_returned _ _ _ _ _ hr).2
    rw [h1]
    exact ⟨rfl, rfl, Or.inl rfl⟩
  | part _ cp fuel n argv entries d d1 registers hr =>
    have h1 := (reinstate_partial_returned _ _ _ _ _ _ _ _ _ _ _ _ hr).2
    rw [h1]
    exact ⟨rfl, rfl, Or.inl rfl⟩
  | abort _ vm tag nstack stack_args tail sp registers argv hr =>
    rw [vm_abort] at hr
    split at hr
    · cases hr
    · injection hr with hr
      subst hr
      exact ⟨rfl, rfl, Or.inl rfl⟩
  | overflow e vp1 hr =>
    rw [error_stack_overflow_raised _ _ _ hr]
    exact ⟨rfl, rfl, Or.inr rfl⟩
  | hook_returned _ vm hook_num argv n hr =>
    have h1 := (dispatch_hook_vp H hk s vm hook_num argv n).1 s1 hr
    rw [h1]
    exact ⟨rfl, rfl, Or.inl rfl⟩
  | hook_raised _ e vm hook_num argv n hr =>
    rcases (dispatch_hook_vp H hk s vm hook_num argv n).2 e s1 hr with h1 | h1 <;>
      rw [h1] <;> exact ⟨rfl, rfl, Or.inl rfl⟩
  | engine _ hr =>
    rw [engine_step] at hr
    rw [hr]
    exact ⟨rfl, rfl, Or.inl rfl⟩
  | pushed _ v hr =>
    rw [engine_push_returned _ _ _ hr]
    exact ⟨rfl, rfl, Or.inl rfl⟩
  | push_raised _ e v hr =>
    rw [engine_push_raised _ _ _ _ hr]
    exact ⟨rfl, rfl, Or.inr rfl⟩
  | caught ip sp fp => exact ⟨rfl, rfl, Or.inl rfl⟩
  | trace_level_set level => exact ⟨rfl, rfl, Or.inl rfl⟩
  | engine_set engine => exact ⟨rfl, rfl, Or.inl rfl⟩
  | hook_made n hook => exact ⟨rfl, rfl, Or.inl rfl⟩

/-- Along `reachable`, `stack_base` and `stack_size` stay what `make_vm` made them, `fp`
stays null (no operation of `vm.c` lays out a frame), and `sp + 1` does not pass the end of
the stack. -/
theorem reachable_fields {D : Type} (L : frame_layout) (ops : dynstack_ops D) (H : hook_ops)
    (hk : hooks_keep_vm H) (mem : Mem) (vp_addr block N engine : Int)
    (hN : VM_MIN_STACK_SIZE ≤ N) (s : VMState)
    (hr : reachable L ops H mem vp_addr block N engine s) :
    s.vp.stack_base = block + 1 ∧ s.vp.stack_size = N - 1 ∧ s.vp.fp = 0 ∧
    s.vp.sp + 1 ≤ s.vp.stack_base + s.vp.stack_size := by
  induction hr with
  | fresh =>
    refine ⟨rfl, rfl, rfl, ?_⟩
    simp only [make_vm, VM_MIN_STACK_SIZE] at hN ⊢
    omega
  | capture s copy dynstack _ ih => exact ih
  | full s0 s s1 copy dynstack n argv _ _ hret ih0 ih =>
    obtain ⟨hc, h1⟩ := return_to_continuation_returned _ _ _ _ _ hret
    obtain ⟨a0, b0, c0, d0⟩ := ih0
    obtain ⟨a1, b1, c1, d1⟩ := ih
    rw [h1]
    simp only [scm_i_capture_current_stack, scm_i_vm_capture_stack] at hc ⊢
    refine ⟨a1, b1, c0, ?_⟩
    omega
  | part s s1 cp fuel n argv entries d d1 registers _ hfp _ ih =>
    exact absurd ih.2.2.1 hfp
  | abort s s1 vm tag nstack stack_args tail sp registers argv _ hsp hret ih =>
    obtain ⟨a1, b1, c1, d1⟩ := ih
    rw [vm_abort] at hret
    split at hret
    · cases hret
    · injection hret with hret
      subst hret
      refine ⟨a1, b1, c1, ?_⟩
      simp only []
      omega
  | overflow s e vp1 _ hret ih =>
    rw [error_stack_overflow_raised _ _ _ hret]
    exact ih
  | hook_returned s s1 vm hook_num argv n _ hret ih =>
    have h1 := (dispatch_hook_vp H hk s vm hook_num argv n).1 s1 hret
    rw [h1]
    exact ih
  | hook_raised s s1 e vm hook_num argv n _ hret ih =>
    rcases (dispatch_hook_vp H hk s vm hook_num argv n).2 e s1 hret with h1 | h1 <;>
      rw [h1] <;> exact ih

/-- C13 as stated fails: when the environment variable holds `2147483648`, an integer that is
at least `1024`, the `int` variable `size` cannot hold it and the default stack size after
`initialize_default_stack_size` is not that integer. -/
theorem stack_size_beyond_int_not_taken :
    (1024 : Int) ≤ 2147483648 ∧
    initialize_default_stack_size (some 2147483648) VM_DEFAULT_STACK_SIZE ≠ 2147483648 := by
  decide

/-- C13, amended: after `initialize_default_stack_size`, started from the default `262144`,
the default stack size equals the integer read from the environment variable when that
integer is at least `1024` and fits the C type `int`; it stays `262144` when the variable is
unset or holds an integer below `1024` (negative ones included); and whatever the variable
holds, the default stack size is at least `1024` and below `2^31`. -/
theorem stack_size_from_environment (env : Option Int) :
    (∀ v, env = some v → VM_MIN_STACK_SIZE ≤ v → v < 2 ^ 31 →
      initialize_default_stack_size env VM_DEFAULT_STACK_SIZE = v) ∧
    (env = none → initialize_default_stack_size env VM_DEFAULT_STACK_SIZE
      = VM_DEFAULT_STACK_SIZE) ∧
    (∀ v, env = some v → -(2 ^ 31) ≤ v → v < VM_MIN_STACK_SIZE →
      initialize_default_stack_size env VM_DEFAULT_STACK_SIZE = VM_DEFAULT_STACK_SIZE) ∧
    VM_MIN_STACK_SIZE ≤ initialize_default_stack_size env VM_DEFAULT_STACK_SIZE ∧
    initialize_default_stack_size env VM_DEFAULT_STACK_SIZE < 2 ^ 31 := by
  have hfit : ∀ v : Int, -(2 ^ 31) ≤ v → v < 2 ^ 31 → to_int v = v := by
    intro v h1 h2
    unfold to_int
    omega
  have hrange : ∀ v : Int, -(2 ^ 31) ≤ to_int v ∧ to_int v < 2 ^ 31 := by
    intro v
    unfold to_int
    omega
  refine ⟨?_, ?_, ?_, ?_, ?_⟩
  · intro v hv h1 h2
    subst hv
    simp only [VM_MIN_STACK_SIZE] at h1
    have := hfit v (by omega) h2
    simp only [initialize_default_stack_size, scm_getenv_int, this, VM_MIN_STACK_SIZE]
    rw [if_pos (by omega)]
  · intro hv
    subst hv
    decide
  · intro v hv h1 h2
    subst hv
    simp only [VM_MIN_STACK_SIZE] at h2
    have := hfit v h1 (by omega)
    simp only [initialize_default_stack_size, scm_getenv_int, this, VM_MIN_STACK_SIZE]
    rw [if_neg (by omega)]
  · simp only [initialize_default_stack_size]
    split
    · assumption
    · decide
  · simp only [initialize_default_stack_size]
    split
    · exact (hrange _).2
    · decide

/-- C13, amended, at the environment values `4096` (accepted) and `-5` (ignored). -/
theorem stack_size_from_environment_witness :
    initialize_default_stack_size (some 4096) VM_DEFAULT_STACK_SIZE = 4096 ∧
    initialize_default_stack_size (some (-5)) VM_DEFAULT_STACK_SIZE = VM_DEFAULT_STACK_SIZE :=
  ⟨(stack_size_from_environment (some 4096)).1 4096 rfl (by decide) (by decide),
    (stack_size_from_environment (some (-5))).2.2.1 (-5) rfl (by decide) (by decide)⟩

/-! ## Abort -/

theorem ilength_of_list (t : scm_obj) :
    (∀ xs, list_elements t = some xs →
      scm_ilength t = (xs.length : Int) ∧ tail_values xs.length t = xs) ∧
    (list_elements t = none → scm_ilength t = -1) := by
  induction t with
  | eol =>
    constructor
    · intro xs h
      simp only [list_elements] at h
      rw [← Option.some.inj h]
      simp [scm_ilength, tail_values]
    · intro h
      simp [list_elements] at h
  | pair a d ih =>
    obtain ⟨ih1, ih2⟩ := ih
    constructor
    · intro xs h
      simp only [list_elements] at h
      cases hd : list_elements d with
      | none => rw [hd] at h; simp at h
      | some ys =>
        rw [hd] at h
        simp only [] at h
        rw [← Option.some.inj h]
        obtain ⟨h1, h2⟩ := ih1 ys hd
        constructor
        · simp only [scm_ilength, h1, List.length_cons, Nat.cast_add, Nat.cast_one]
          rw [if_neg (by omega)]
        · simp only [List.length_cons, tail_values, h2]
    · intro h
      simp only [list_elements] at h
      cases hd : list_elements d with
      | none =>
        simp only [scm_ilength, ih2 hd]
        rfl
      | some ys => rw [hd] at h; simp at h
  | other w =>
    constructor
    · intro xs h
      simp [list_elements] at h
    · intro _
      rfl

/-- C14 as stated fails: for the improper tail `(1 2 . 7)` the call leaves by the throw of
`scm_misc_error`, not by the throw of `vm_error_improper_list`. -/
theorem abort_not_improper_list_error :
    list_elements tail_improper = none ∧
    ¬ ∃ s1 : VMState,
      vm_abort state_small 5 6 2 200 tail_improper 11 0
        = abort_outcome.raised
            (Error.vm_error "Expected a proper list, but got object with tail ~s") s1 := by
  refine ⟨by decide, ?_⟩
  rintro ⟨s1, h⟩
  have hlt : scm_ilength tail_improper < 0 := by decide
  rw [vm_abort, if_pos hlt] at h
  cases h

/-- C14, amended: for `n` stack arguments and a tail that is a proper list with elements `xs`,
`vm_abort` sets `sp` to the `sp` supplied, leaves every other field and the memory alone, and
calls `scm_c_abort` with the `n + m` values made of the stack arguments in order followed by
`xs` in order; for a tail that is not a proper list it leaves by the `scm_misc_error` of
subroutine `vm-engine` with message `tail values to abort should be a list`, in the state it
was entered in and without calling `scm_c_abort`. -/
theorem abort_argument_flattening (s : VMState) (vm tag : SCM) (nstack : Nat)
    (stack_args : Int) (tail : scm_obj) (sp registers : Int) :
    (∀ xs, list_elements tail = some xs →
      vm_abort s vm tag nstack stack_args tail sp registers
        = abort_outcome.c_abort { s with vp := { s.vp with sp := sp } } vm tag
            (read_array s.mem stack_args nstack ++ xs) registers ∧
      (read_array s.mem stack_args nstack ++ xs).length = nstack + xs.length) ∧
    (list_elements tail = none →
      vm_abort s vm tag nstack stack_args tail sp registers
        = abort_outcome.raised
            (Error.misc_error "vm-engine" "tail values to abort should be a list") s) := by
  constructor
  · intro xs hxs
    obtain ⟨h1, h2⟩ := (ilength_of_list tail).1 xs hxs
    constructor
    · rw [vm_abort, if_neg (by omega), h1, Int.toNat_ofNat, h2]
    · rw [List.length_append, read_array_length]
  · intro hnone
    have h1 := (ilength_of_list tail).2 hnone
    rw [vm_abort, if_pos (by omega)]

/-- C14, amended, at two stack arguments in cells `200`, `201` and the tail `(31 32)`, and at
the improper tail `(1 2 . 7)`. -/
theorem abort_argument_flattening_witness :
    vm_abort state_small 5 6 2 200 tail_proper 11 0
      = abort_outcome.c_abort { state_small with vp := { state_small.vp with sp := 11 } } 5 6
          [400, 402, 31, 32] 0 ∧
    vm_abort state_small 5 6 2 200 tail_improper 11 0
      = abort_outcome.raised
          (Error.misc_error "vm-engine" "tail values to abort should be a list") state_small :=
  ⟨((abort_argument_flattening state_small 5 6 2 200 tail_proper 11 0).1 [31, 32]
      (by decide)).1,
    (abort_argument_flattening state_small 5 6 2 200 tail_improper 11 0).2 (by decide)⟩

/-! ## call-with-vm -/

theorem call_with_vm_enter_ok (R : vm_run_ops) (t : scm_i_thread) (vm proc : SCM)
    (args : scm_obj) (xs : List SCM) (hvm : R.SCM_VM_P vm = true)
    (hproc : R.scm_procedure_p proc = true) (hargs : list_elements args = some xs) :
    call_with_vm_enter R t vm proc args
      = Except.ok
          (if t.vm = vm then { thread := t, argv := xs, flags := 0 }
           else
             { thread :=
                 { vm := vm,
                   dynwinds :=
                     dynwind_entry.unwind_handler unwind_proc.reinstate_vm t.vm
                       SCM_F_WIND_EXPLICITLY :: dynwind_entry.frame 0 :: t.dynwinds },
               argv := xs, flags := SCM_F_WIND_EXPLICITLY }) := by
  obtain ⟨h1, h2⟩ := (ilength_of_list args).1 xs hargs
  have hv : ¬ R.SCM_VM_P vm = false := by rw [hvm]; decide
  have hp : ¬ R.scm_procedure_p proc = false := by rw [hproc]; decide
  rw [call_with_vm_enter, if_neg hv, if_neg hp]
  simp only []
  rw [if_neg (by omega), h1, Int.toNat_ofNat, h2]
  by_cases heq : t.vm = vm
  · simp [heq]
  · simp [heq, SCM_F_WIND_EXPLICITLY, scm_dynwind_begin, scm_dynwind_unwind_handler_with_scm]

theorem dynwind_end_reinstate (vm prev : SCM) (rest : List dynwind_entry) :
    scm_dynwind_end
        { vm := vm,
          dynwinds :=
            dynwind_entry.unwind_handler unwind_proc.reinstate_vm prev SCM_F_WIND_EXPLICITLY
              :: dynwind_entry.frame 0 :: rest }
      = { vm := prev, dynwinds := rest } := by
  have hland : Int.land SCM_F_WIND_EXPLICITLY SCM_F_WIND_EXPLICITLY ≠ 0 := by decide
  simp only [scm_dynwind_end, unwind_to_frame, if_pos hland, run_unwind_proc, reinstate_vm]

/-- C15: `call-with-vm` installs and restores the current VM.  For a VM `vm`, a procedure
`proc` and a proper argument list, `scm_call_with_vm` reaches `scm_c_vm_run` with the
current-VM slot of the thread holding `vm`.  When `vm` differs from the VM installed before,
it has opened a dynamic extent with flags `0` (non-rewindable) carrying the handler
`reinstate_vm` for the previous VM with flag `SCM_F_WIND_EXPLICITLY`; when they are the same,
the dynamic-extent stack is as before the call.  When the run returns, having left the slot
and the dynamic-extent stack as it found them, `scm_call_with_vm` returns the value of the
run with the slot holding the previous VM and the dynamic-extent stack as before the call. -/
theorem call_with_vm_installs (R : vm_run_ops) (t : scm_i_thread) (vm proc : SCM)
    (args : scm_obj) (xs : List SCM) (hvm : R.SCM_VM_P vm = true)
    (hproc : R.scm_procedure_p proc = true) (hargs : list_elements args = some xs) :
    ∃ entry : call_with_vm_entry,
      call_with_vm_enter R t vm proc args = Except.ok entry ∧
      entry.argv = xs ∧
      entry.thread.vm = vm ∧
      (vm ≠ t.vm →
        entry.thread.dynwinds
          = dynwind_entry.unwind_handler unwind_proc.reinstate_vm t.vm SCM_F_WIND_EXPLICITLY
              :: dynwind_entry.frame 0 :: t.dynwinds) ∧
      (vm = t.vm → entry.thread.dynwinds = t.dynwinds) ∧
      (run_keeps_thread R → ∀ ret t1,
        R.scm_c_vm_run vm proc entry.argv entry.thread = call_outcome.returned t1 ret →
        ∃ t2, scm_call_with_vm R t vm proc args = call_outcome.returned t2 ret ∧
          t2.vm = t.vm ∧ t2.dynwinds = t.dynwinds) := by
  have henter := call_with_vm_enter_ok R t vm proc args xs hvm hproc hargs
  by_cases heq : t.vm = vm
  · rw [if_pos heq] at henter
    refine ⟨_, henter, rfl, heq, fun h => absurd heq.symm h, fun _ => rfl, ?_⟩
    intro hk ret t1 hrun
    have ht1 := hk _ _ _ _ _ _ hrun
    refine ⟨t, ?_, rfl, rfl⟩
    simp only [] at hrun ht1
    simp only [scm_call_with_vm, henter, hrun, ht1]
    rfl
  · rw [if_neg heq] at henter
    refine ⟨_, henter, rfl, rfl, fun _ => rfl, fun h => absurd h.symm heq, ?_⟩
    intro hk ret t1 hrun
    have ht1 := hk _ _ _ _ _ _ hrun
    simp only [] at hrun ht1
    refine ⟨{ vm := t.vm, dynwinds := t.dynwinds }, ?_, rfl, rfl⟩
    have hflag : (SCM_F_WIND_EXPLICITLY : Int) ≠ 0 := by decide
    simp only [scm_call_with_vm, henter, hrun, ht1, if_pos hflag, dynwind_end_reinstate]

/-- C15, at the thread `thread_main` (current VM `800`) and the other VM `801`: the run is
entered with `801` installed inside a fresh non-rewindable extent, and the call returns with
`800` installed again and the extent gone. -/
theorem call_with_vm_installs_witness :
    ∃ entry : call_with_vm_entry,
      call_with_vm_enter run_idle thread_main 801 9 tail_proper = Except.ok entry ∧
      entry.thread.vm = 801 ∧
      entry.thread.dynwinds
        = [dynwind_entry.unwind_handler unwind_proc.reinstate_vm 800 SCM_F_WIND_EXPLICITLY,
           dynwind_entry.frame 0, dynwind_entry.frame 1] ∧
      ∃ t2, scm_call_with_vm run_idle thread_main 801 9 tail_proper
          = call_outcome.returned t2 0 ∧ t2.vm = 800 ∧ t2.dynwinds = [dynwind_entry.frame 1] :=
  (call_with_vm_installs run_idle thread_main 801 9 tail_proper [31, 32] rfl rfl
      (by decide)).imp
    (fun entry h =>
      ⟨h.1, h.2.2.1, h.2.2.2.1 (by decide),
        h.2.2.2.2.2 (fun _ _ _ _ _ _ hr => (call_outcome.returned.inj hr).1.symm) 0
          entry.thread rfl⟩)

/-! ## Writes stay inside the usable stack -/

theorem push_all_mem_above (s : VMState) (vs : List SCM) (a : Int)
    (h : s.vp.sp + (vs.length : Int) < a) : (push_all s vs).mem a = s.mem a := by
  induction vs generalizing s with
  | nil => simp [push_all]
  | cons v vs ih =>
    simp only [List.length_cons, Nat.cast_add, Nat.cast_one] at h
    have h1 := ih (push s v) (by simp only [push]; omega)
    simp only [push_all, List.foldl_cons] at h1 ⊢
    rw [h1]
    have hne : a ≠ s.vp.sp + 1 := by omega
    simp [push, write, hne]

theorem push_all_mem_outside (s : VMState) (vs : List SCM) (a : Int)
    (h : a ≤ s.vp.sp ∨ s.vp.sp + (vs.length : Int) < a) : (push_all s vs).mem a = s.mem a := by
  rcases h with h | h
  · exact push_all_mem_below s vs a h
  · exact push_all_mem_above s vs a h

theorem memcpy_outside (mem : Mem) (dst src n a : Int) (h : a < dst ∨ dst + n ≤ a) :
    memcpy mem dst src n a = mem a := by
  simp only [memcpy]
  rw [if_neg (by omega)]

theorem frame_chain_head (L : frame_layout) (mem : Mem) (reloc base : Int) (fs : List Int) :
    ∀ fp, frame_chain L mem reloc base fp fs → fs.Pairwise (fun f g => g < f) →
      ∀ f ∈ fs, f ≤ fp := by
  intro fp hc hp f hf
  cases fs with
  | nil => simp at hf
  | cons g gs =>
    obtain ⟨hfp, _, _⟩ := hc
    rcases List.mem_cons.mp hf with h | h
    · rw [h, hfp]
    · have := (List.pairwise_cons.mp hp).1 f h
      omega

/-- C17 as stated fails for partial reinstatement.  The slice `[20 .. 27]` of the VM
`state_wild` (usable stack `[10, 50)`) is captured as `cont_wild`; cell `22`, the dynamic-link
slot of its frame at `25`, holds `990`.  Later the same VM reinstates the slice on the frame at
`fp = 30`: `base ≤ base1 = 30` and the space check passes (`20 + 8 + 0 + 1 ≤ 40`), the call
returns, and yet the relocation loop, led by the relocated link to the frame address `1000`,
has rewritten the dynamic-link slot of that frame: cell `997`, outside `[10, 50)`, held `0`
before the call and holds `10` after it. -/
theorem partial_reinstatement_writes_outside :
    state_wild_later.vp.stack_base
      ≤ SCM_FRAME_LOCALS_ADDRESS layout_three state_wild_later.vp.fp ∧
    ¬ (SCM_FRAME_LOCALS_ADDRESS layout_three state_wild_later.vp.fp
          - state_wild_later.vp.stack_base) + cont_wild.stack_size + ((0 : Nat) : Int) + 1
        > state_wild_later.vp.stack_size ∧
    ¬ (state_wild_later.vp.stack_base ≤ 997 ∧
        997 < state_wild_later.vp.stack_base + state_wild_later.vp.stack_size) ∧
    state_wild_later.mem 997 = 0 ∧
    ∃ (s1 : VMState) (d1 : List (Int × Option Int)),
      vm_reinstate_partial_continuation layout_three dynstack_log 2 state_wild_later cont_wild
          0 200 [] [] 0
        = some (Outcome.returned (s1, d1)) ∧
      s1.mem 997 = 10 :=
  ⟨by decide, by decide, by decide, by decide, _, _, rfl, by decide⟩

/-- C17, amended: reinstatement does not write outside the usable stack, provided, for
partial reinstatement, that the frames of the slice are well formed.  Full reinstatement of a
snapshot captured from the same VM (so that `stack_size = S.sp - base + 1`), when its space
check passes, leaves every cell outside `[base, base + usable_capacity)` as it was and ends
with `sp = S.sp + 3 + n`, below `base + usable_capacity`.  Partial reinstatement, when its
space check passes on a frame with `base ≤ base1`, for a slice of non-negative size, leaves
every cell outside `[base, base + usable_capacity)` as it was and ends with
`sp = base1 - 1 + slice_size + n`, below `base + usable_capacity`, if the dynamic-link slot
of a frame lies in the frame, below `fp` and not below its lower address, the relocated `fp`
of the snapshot is not above the end of the copied slice, and each dynamic link followed by
the relocation loop leads to a frame at a lower address. -/
theorem reinstatement_stays_in_stack {D : Type} (L : frame_layout) (ops : dynstack_ops D)
    (s : VMState) (n : Nat) (argv : Int)
    (mem0 : Mem) (copy fp sp ra dynstack flags : Int)
    (fuel : Nat) (cp : scm_vm_cont) (entries : List dynstack_entry) (d : D) (registers : Int)
    (fs : List Int) :
    (s.vp.stack_base - 1 ≤ sp →
      ¬ s.vp.stack_size
        < (scm_i_vm_capture_stack mem0 copy s.vp.stack_base fp sp ra dynstack flags).1.stack_size
          + (n : Int) + 3 →
      ∃ s1 : VMState,
        vm_return_to_continuation s
            (scm_i_vm_capture_stack mem0 copy s.vp.stack_base fp sp ra dynstack flags).1 n argv
          = Outcome.returned s1 ∧
        (∀ a : Int, a < s.vp.stack_base ∨ s.vp.stack_base + s.vp.stack_size ≤ a →
          s1.mem a = s.mem a) ∧
        s1.vp.sp = sp + 3 + (n : Int) ∧
        s1.vp.sp < s.vp.stack_base + s.vp.stack_size) ∧
    (0 ≤ cp.stack_size →
      s.vp.stack_base ≤ SCM_FRAME_LOCALS_ADDRESS L s.vp.fp →
      ¬ (SCM_FRAME_LOCALS_ADDRESS L s.vp.fp - s.vp.stack_base) + cp.stack_size + (n : Int) + 1
        > s.vp.stack_size →
      L.lower ≤ L.dynamic_link → L.dynamic_link < 0 →
      cp.fp + (cp.reloc + (SCM_FRAME_LOCALS_ADDRESS L s.vp.fp - cp.stack_base))
        ≤ SCM_FRAME_LOCALS_ADDRESS L s.vp.fp + cp.stack_size →
      frame_chain L (memcpy s.mem (SCM_FRAME_LOCALS_ADDRESS L s.vp.fp) cp.stack_base
          cp.stack_size)
        (cp.reloc + (SCM_FRAME_LOCALS_ADDRESS L s.vp.fp - cp.stack_base))
        (SCM_FRAME_LOCALS_ADDRESS L s.vp.fp)
        (cp.fp + (cp.reloc + (SCM_FRAME_LOCALS_ADDRESS L s.vp.fp - cp.stack_base))) fs →
      fs.Pairwise (fun f g => g < f) → fs.length ≤ fuel →
      ∃ (s1 : VMState) (d1 : D),
        vm_reinstate_partial_continuation L ops fuel s cp n argv entries d registers
          = some (Outcome.returned (s1, d1)) ∧
        (∀ a : Int, a < s.vp.stack_base ∨ s.vp.stack_base + s.vp.stack_size ≤ a →
          s1.mem a = s.mem a) ∧
        s1.vp.sp = SCM_FRAME_LOCALS_ADDRESS L s.vp.fp - 1 + cp.stack_size + (n : Int) ∧
        s1.vp.sp < s.vp.stack_base + s.vp.stack_size) := by
  constructor
  · intro hlive hspace
    refine ⟨_, by rw [vm_return_to_continuation, if_neg hspace], ?_, ?_, ?_⟩
    · intro a ha
      simp only [scm_i_vm_capture_stack] at hspace
      simp only []
      rw [push_all_mem_outside _ _ _
          (by rw [push_all_vp]
              simp only [scm_i_vm_capture_stack, List.length_replicate, read_array_length]
              push_cast
              omega),
        push_all_mem_outside _ _ _
          (by simp only [scm_i_vm_capture_stack, List.length_replicate]
              push_cast
              omega)]
      exact memcpy_outside _ _ _ _ _ (by simp only [scm_i_vm_capture_stack]; omega)
    · simp only [push_all_vp, scm_i_vm_capture_stack, List.length_replicate, read_array_length]
      push_cast
      omega
    · simp only [scm_i_vm_capture_stack] at hspace
      simp only [push_all_vp, scm_i_vm_capture_stack, List.length_replicate, read_array_length]
      push_cast
      omega
  · intro hsize hbase hspace hlow hneg hfirst hchain hdesc hfuel
    have hnodup : fs.Nodup := hdesc.imp (fun h => by omega)
    have hslots : ∀ f ∈ fs, SCM_FRAME_LOCALS_ADDRESS L s.vp.fp ≤ f + L.dynamic_link ∧
        f + L.dynamic_link < SCM_FRAME_LOCALS_ADDRESS L s.vp.fp + cp.stack_size := by
      intro f hf
      have h1 := frame_chain_lower L _ _ _ fs _ hchain f hf
      have h2 := frame_chain_head L _ _ _ fs _ hchain hdesc f hf
      simp only [SCM_FRAME_LOWER_ADDRESS] at h1
      constructor <;> omega
    obtain ⟨mem2, hrun, hval⟩ :=
      relocate_frames_chain L _ _ _ fs hnodup _
        (memcpy s.mem (SCM_FRAME_LOCALS_ADDRESS L s.vp.fp) cp.stack_base cp.stack_size) fuel
        hchain (fun _ _ => rfl) hfuel
    have hcall : vm_reinstate_partial_continuation L ops fuel s cp n argv entries d registers
        = some (Outcome.returned
            (push_all
              { vp := { s.vp with
                          sp := SCM_FRAME_LOCALS_ADDRESS L s.vp.fp - 1 + cp.stack_size,
                          fp := cp.fp
                            + (cp.reloc + (SCM_FRAME_LOCALS_ADDRESS L s.vp.fp - cp.stack_base)),
                          ip := cp.ra },
                mem := mem2 }
              (read_array s.mem argv n),
             wind_entries ops
               (cp.reloc + (SCM_FRAME_LOCALS_ADDRESS L s.vp.fp - cp.stack_base)) registers d
               entries)) := by
      simp only [vm_reinstate_partial_continuation, if_neg hspace, hrun]
    refine ⟨_, _, hcall, ?_, ?_, ?_⟩
    · intro a ha
      rw [push_all_mem_outside _ _ _ (by simp only [read_array_length]; omega)]
      show mem2 a = _
      rw [hval]
      have hnot : a ∉ fs.map (fun f => f + L.dynamic_link) := by
        intro h
        obtain ⟨f, hf, hfe⟩ := List.mem_map.mp h
        have := hslots f hf
        omega
      rw [if_neg hnot]
      exact memcpy_outside _ _ _ _ _ (by omega)
    · simp only [push_all_vp, read_array_length]
    · simp only [push_all_vp, read_array_length]
      omega

/-- C17, amended, at the full reinstatement of the snapshot of `[10 .. 12]` into
`state_later` with two arguments (usable stack `[10, 18)`), and at the partial reinstatement
of `cont_slice` on the frame at `20` of `state_frame` with one argument (usable stack
`[10, 50)`), whose one frame above the base, at `25`, links to the frame at `21`. -/
theorem reinstatement_stays_in_stack_witness :
    (∃ s1 : VMState,
      vm_return_to_continuation state_later
          (scm_i_vm_capture_stack mem_double 100 10 11 12 70 0 0).1 2 200
        = Outcome.returned s1 ∧
      s1.mem 9 = state_later.mem 9 ∧ s1.mem 18 = state_later.mem 18 ∧ s1.vp.sp = 17) ∧
    (∃ (s1 : VMState) (d1 : List (Int × Option Int)),
      vm_reinstate_partial_continuation layout_three dynstack_log 1 state_frame cont_slice 1
          200 [] [] 0
        = some (Outcome.returned (s1, d1)) ∧
      s1.mem 9 = state_frame.mem 9 ∧ s1.mem 50 = state_frame.mem 50 ∧ s1.vp.sp = 28) :=
  ⟨((reinstatement_stays_in_stack layout_three dynstack_log state_later 2 200 mem_double 100
        11 12 70 0 0 1 cont_slice [] [] 0 [25]).1 (by decide) (by decide)).imp
      (fun _ h => ⟨h.1, h.2.1 9 (Or.inl (by decide)), h.2.1 18 (Or.inr (by decide)), h.2.2.1⟩),
    ((reinstatement_stays_in_stack layout_three dynstack_log state_frame 1 200 mem_double 100
        11 12 70 0 0 1 cont_slice [] [] 0 [25]).2 (by decide) (by decide) (by decide)
        (by decide) (by decide) (by decide)
        (by simp only [frame_chain]; decide) (List.pairwise_singleton _ _) (by decide)).imp
      (fun _ h => h.imp
        (fun _ h =>
          ⟨h.1, h.2.1 9 (Or.inl (by decide)), h.2.1 50 (Or.inr (by decide)), h.2.2.1⟩))⟩

/-! ## The relocation delta -/

theorem reinstate_partial_returned_dynstack {D : Type} (L : frame_layout)
    (ops : dynstack_ops D) (fuel : Nat) (s s1 : VMState) (cp : scm_vm_cont) (n : Nat)
    (argv : Int) (entries : List dynstack_entry) (d d1 : D) (registers : Int)
    (h : vm_reinstate_partial_continuation L ops fuel s cp n argv entries d registers
      = some (Outcome.returned (s1, d1))) :
    d1 = wind_entries ops (cp.reloc + (SCM_FRAME_LOCALS_ADDRESS L s.vp.fp - cp.stack_base))
      registers d entries := by
  rw [vm_reinstate_partial_continuation] at h
  split at h
  · cases h
  · simp only [] at h
    split at h
    · cases h
    · injection h with h
      injection h with h
      injection h with h h2
      exact h2.symm

/-- C18: the relocation delta does not depend on where the heap copy lives.  For a snapshot
`P` taken by `scm_i_vm_capture_stack` from a slice starting at `b0`, whatever the address
`copy` of its buffer, the delta `P.reloc + (base1 - P.stack_base)` computed by
`vm_reinstate_partial_continuation` for the target `base1` equals `base1 - b0`; a pointer `p`
is therefore relocated to `base1 + (p - b0)`, and to itself when `base1 = b0`.  A successful
reinstatement accordingly sets `fp` to `base1 + (P.fp - b0)` and winds the captured prompts
with the delta `base1 - b0`. -/
theorem relocation_delta {D : Type} (L : frame_layout) (ops : dynstack_ops D) (fuel : Nat)
    (s : VMState) (mem0 : Mem) (copy b0 fp0 sp0 ra dyn flags : Int) (n : Nat) (argv : Int)
    (entries : List dynstack_entry) (d : D) (registers : Int) :
    (scm_i_vm_capture_stack mem0 copy b0 fp0 sp0 ra dyn flags).1.reloc
        + (SCM_FRAME_LOCALS_ADDRESS L s.vp.fp
          - (scm_i_vm_capture_stack mem0 copy b0 fp0 sp0 ra dyn flags).1.stack_base)
      = SCM_FRAME_LOCALS_ADDRESS L s.vp.fp - b0 ∧
    (∀ p : Int,
      p + ((scm_i_vm_capture_stack mem0 copy b0 fp0 sp0 ra dyn flags).1.reloc
          + (SCM_FRAME_LOCALS_ADDRESS L s.vp.fp
            - (scm_i_vm_capture_stack mem0 copy b0 fp0 sp0 ra dyn flags).1.stack_base))
        = SCM_FRAME_LOCALS_ADDRESS L s.vp.fp + (p - b0)) ∧
    (SCM_FRAME_LOCALS_ADDRESS L s.vp.fp = b0 → ∀ p : Int,
      p + ((scm_i_vm_capture_stack mem0 copy b0 fp0 sp0 ra dyn flags).1.reloc
          + (SCM_FRAME_LOCALS_ADDRESS L s.vp.fp
            - (scm_i_vm_capture_stack mem0 copy b0 fp0 sp0 ra dyn flags).1.stack_base))
        = p) ∧
    (∀ (s1 : VMState) (d1 : D),
      vm_reinstate_partial_continuation L ops fuel s
          (scm_i_vm_capture_stack mem0 copy b0 fp0 sp0 ra dyn flags).1 n argv entries d
          registers
        = some (Outcome.returned (s1, d1)) →
      s1.vp.fp = SCM_FRAME_LOCALS_ADDRESS L s.vp.fp + (fp0 - b0) ∧
      d1 = wind_entries ops (SCM_FRAME_LOCALS_ADDRESS L s.vp.fp - b0) registers d entries) := by
  have hdelta : (scm_i_vm_capture_stack mem0 copy b0 fp0 sp0 ra dyn flags).1.reloc
        + (SCM_FRAME_LOCALS_ADDRESS L s.vp.fp
          - (scm_i_vm_capture_stack mem0 copy b0 fp0 sp0 ra dyn flags).1.stack_base)
      = SCM_FRAME_LOCALS_ADDRESS L s.vp.fp - b0 := by
    simp only [scm_i_vm_capture_stack]
    omega
  refine ⟨hdelta, ?_, ?_, ?_⟩
  · intro p
    rw [hdelta]
    omega
  · intro hb p
    rw [hdelta]
    omega
  · intro s1 d1 h
    have h1 := (reinstate_partial_returned L ops fuel s s1 _ n argv entries d d1 registers h).2
    have h2 := reinstate_partial_returned_dynstack L ops fuel s s1 _ n argv entries d d1
      registers h
    rw [hdelta] at h1 h2
    refine ⟨?_, h2⟩
    rw [h1]
    simp only [scm_i_vm_capture_stack]
    omega

/-- C18, at slices starting at `60` captured into buffers at `100` and at `7000`, with the
frame of `state_frame` at `20`: both deltas are `-40`; and at a slice starting at `20`
itself, where the pointer `25` is relocated to itself. -/
theorem relocation_delta_witness :
    (scm_i_vm_capture_stack mem_double 100 60 65 67 70 0 0).1.reloc
        + (SCM_FRAME_LOCALS_ADDRESS layout_three state_frame.vp.fp
          - (scm_i_vm_capture_stack mem_double 100 60 65 67 70 0 0).1.stack_base)
      = 20 - 60 ∧
    (scm_i_vm_capture_stack mem_double 7000 60 65 67 70 0 0).1.reloc
        + (SCM_FRAME_LOCALS_ADDRESS layout_three state_frame.vp.fp
          - (scm_i_vm_capture_stack mem_double 7000 60 65 67 70 0 0).1.stack_base)
      = 20 - 60 ∧
    25 + ((scm_i_vm_capture_stack mem_double 100 20 25 27 70 0 0).1.reloc
        + (SCM_FRAME_LOCALS_ADDRESS layout_three state_frame.vp.fp
          - (scm_i_vm_capture_stack mem_double 100 20 25 27 70 0 0).1.stack_base))
      = 25 :=
  ⟨(relocation_delta layout_three dynstack_log 1 state_frame mem_double 100 60 65 67 70 0 0 1
      200 [] [] 0).1,
    (relocation_delta layout_three dynstack_log 1 state_frame mem_double 7000 60 65 67 70 0 0 1
      200 [] [] 0).1,
    (relocation_delta layout_three dynstack_log 1 state_frame mem_double 100 20 25 27 70 0 0 1
      200 [] [] 0).2.2.1 rfl 25⟩

end Guile
